import Mathlib

/-!
Verification of the s3-sftp-proxy object-store I/O engine.

The definitions below are a shallow embedding of the Go sources:
- `multipart_upload.go` (S3MultipartUploadWriter, S3UploadWorkers),
- the unnamed source file (S3GetObjectOutputReader, S3ObjectLister,
  S3ObjectStat, aclToMode).

Bytes are modelled as `Nat`, buffers as `List Nat`, S3 API traffic as a
trace of `Event`s, and the S3 service / environment as explicit records
of answers.  Worker goroutines are modelled synchronously: a part sent on
the upload channel is uploaded immediately (a legal linearization, since
Close waits on the writer wait-group before inspecting results).
-/

namespace S3Proxy

/-- Go's `copy(dst[start:stop], src)` on byte slices: copies
`min (stop - start) src.length` bytes into `dst` starting at `start`,
clipped to the length of `dst`. -/
def goCopySlice (dst : List Nat) (start stop : Nat) (src : List Nat) : List Nat :=
  let stop' := min stop dst.length
  let n := min (stop' - start) src.length
  dst.take start ++ src.take n ++ dst.drop (start + n)

/-- Modelled from the spec: `util.OffsetRanges` (the `util` package is not
under `src/`).  "For a buffer of size `partSize`, a set of non-overlapping
`[start,end)` ranges. `Add(s,e)` merges."  The ranges are kept sorted by
start and merged (overlapping or adjacent ranges are coalesced). -/
structure OffsetRanges where
  partSize : Nat
  ranges : List (Nat × Nat)
deriving DecidableEq, Repr

/-- Modelled from the spec: insertion of `[s,e)` into a sorted merged
range list, coalescing overlapping or adjacent ranges. -/
def rangesAdd : List (Nat × Nat) → Nat → Nat → List (Nat × Nat)
  | [], s, e => [(s, e)]
  | (a, b) :: rest, s, e =>
    if e < a then (s, e) :: (a, b) :: rest
    else if b < s then (a, b) :: rangesAdd rest s e
    else rangesAdd rest (min a s) (max b e)

/-- Modelled from the spec: `OffsetRanges.Add(start, end)`. -/
def OffsetRanges.add (o : OffsetRanges) (s e : Nat) : OffsetRanges :=
  { o with ranges := rangesAdd o.ranges s e }

/-- Modelled from the spec: `GetMaxValidOffset()` "returns the highest `e`
such that `[0,e)` is fully covered, or `-1` if offset 0 is not covered".
On the sorted merged representation that is the end of the first range
when it starts at 0. -/
def OffsetRanges.getMaxValidOffset (o : OffsetRanges) : Int :=
  match o.ranges with
  | (a, e) :: _ => if a = 0 then (e : Int) else -1
  | [] => -1

/-- Modelled from the spec: `IsFull()` iff `GetMaxValidOffset() == partSize`. -/
def OffsetRanges.isFull (o : OffsetRanges) : Bool :=
  o.getMaxValidOffset = (o.partSize : Int)

/-- The five part-upload states of `S3PartUploadState` in
`multipart_upload.go`, in declaration order. -/
inductive S3PartUploadState
  | adding
  | full
  | sent
  | errorSending
  | cancelled
deriving DecidableEq, Repr

/-- The numeric value of each state constant (they are consecutive values
of an iota block starting at 0); the source compares states with `<`. -/
def S3PartUploadState.toNat : S3PartUploadState → Nat
  | .adding => 0
  | .full => 1
  | .sent => 2
  | .errorSending => 3
  | .cancelled => 4

/-- `S3PartToUpload`: one part of a multipart upload.  The Go struct holds
a pooled byte buffer, the 1-based part number, the filled offset ranges
and the state (the back-pointer `uw` and the mutex are not data). -/
structure S3PartToUpload where
  content : List Nat
  partNumber : Nat
  o : OffsetRanges
  state : S3PartUploadState
deriving DecidableEq, Repr

/-- `S3PartToUpload.getContent`: the prefix of the buffer covered
contiguously from offset 0, or an error for an incomplete part. -/
def S3PartToUpload.getContent (part : S3PartToUpload) : Option (List Nat) :=
  let e := part.o.getMaxValidOffset
  if e = -1 then none
  else some (part.content.take e.toNat)

/-- `S3PartToUpload.copy(buf, start, end)`: copy `buf` into
`content[start:end]` and record the range. -/
def S3PartToUpload.copyIn (part : S3PartToUpload) (buf : List Nat) (start stop : Nat) :
    S3PartToUpload :=
  { part with
    content := goCopySlice part.content start stop buf
    o := part.o.add start stop }

/-- `S3PartToUpload.isFull`. -/
def S3PartToUpload.isFull (part : S3PartToUpload) : Bool :=
  part.o.isFull

/-- Errors the writer model can surface (the Go code carries `error`
values; we tag the distinct construction sites). -/
inductive WErr
  | tooLarge
  | poolGetFailed
  | createFailed
  | uploadPartFailed (partNumber : Nat)
  | putFailed
  | completeFailed
  | incompletePart (partNumber : Nat)
  | pendingParts (count : Nat)
  | nilPart
  | fuelOut
deriving DecidableEq, Repr

/-- Observable actions of the writer: S3 API calls, pool traffic and the
phantom-map removal performed by `Close`. -/
inductive Event
  | phantomRemove
  | poolGet
  | poolPut
  | putObject (content : List Nat)
  | createMultipartUpload
  | uploadPart (partNumber : Nat) (content : List Nat)
  | completeMultipartUpload (parts : List (Option Nat))
  | abortMultipartUpload
deriving DecidableEq, Repr

/-- Answers of the S3 service and the memory pool to the writer's calls. -/
structure S3Behavior where
  poolGetOk : Bool := true
  createOk : Bool := true
  putOk : Bool := true
  completeOk : Bool := true
  uploadPartOk : Nat → Bool := fun _ => true

/-- The all-success environment. -/
def allOk : S3Behavior := {}

/-- Static configuration of a writer: the pool buffer size
(`UploadMemoryBufferPool.BufSize`) and `MaxObjectSize` (negative means
unlimited, as in the source check `MaxObjectSize >= 0`). -/
structure WConfig where
  partSize : Nat
  maxObjectSize : Int := -1

/-- Mutable state of `S3MultipartUploadWriter`: the sparse part vector,
the completed-part vector (we keep the part number in place of the ETag),
the multipart upload id, the sticky error, the phantom info size
(`Info.SetSizeIfGreater`), the phantom-map membership of `Info`, and the
trace of emitted events. -/
structure WState where
  parts : List (Option S3PartToUpload) := []
  completedParts : List (Option Nat) := []
  multiPartUploadID : Option Nat := none
  err : Option WErr := none
  infoSize : Nat := 0
  phantom : Bool := true
  trace : List Event := []
deriving Repr

/-- A freshly constructed writer (`Filewrite` adds the phantom entry and
hands out a writer with empty part vectors). -/
def mkWriter : WState := {}

/-- `s3CreateMultipartUpload`: performs the API call (always traced) and
stores the returned upload id on success. -/
def s3CreateMultipartUpload (beh : S3Behavior) (s : WState) : WState × Option WErr :=
  let s := { s with trace := s.trace ++ [Event.createMultipartUpload] }
  if beh.createOk then ({ s with multiPartUploadID := some 1 }, none)
  else (s, some .createFailed)

/-- `s3PutObject(content)`. -/
def s3PutObject (beh : S3Behavior) (s : WState) (content : List Nat) :
    WState × Option WErr :=
  let s := { s with trace := s.trace ++ [Event.putObject content] }
  if beh.putOk then (s, none) else (s, some .putFailed)

/-- `s3AbortMultipartUpload`: a no-op when no multipart upload is open;
otherwise clears the upload id (the source nils it before the call, so a
repeated invocation performs no second API call) and issues the call. -/
def s3AbortMultipartUpload (s : WState) : WState :=
  match s.multiPartUploadID with
  | some _ =>
    { s with multiPartUploadID := none
             trace := s.trace ++ [Event.abortMultipartUpload] }
  | none => s

/-- `s3CompleteMultipartUpload`. -/
def s3CompleteMultipartUpload (beh : S3Behavior) (s : WState) :
    WState × Option WErr :=
  let s := { s with trace := s.trace ++ [Event.completeMultipartUpload s.completedParts] }
  if beh.completeOk then (s, none) else (s, some .completeFailed)

/-- `s3UploadPart(part)`: obtains the part content (failing without an API
call on an incomplete part), issues UploadPart, and on success grows
`completedParts` to the length of `parts` and records the completed part
at index `partNumber-1`. -/
def s3UploadPart (beh : S3Behavior) (s : WState) (part : S3PartToUpload) :
    WState × Option WErr :=
  match part.getContent with
  | none => (s, some (.incompletePart part.partNumber))
  | some content =>
    let s := { s with trace := s.trace ++ [Event.uploadPart part.partNumber content] }
    if beh.uploadPartOk part.partNumber then
      let cp := if s.completedParts.length < s.parts.length
                then s.completedParts ++
                     List.replicate (s.parts.length - s.completedParts.length) none
                else s.completedParts
      ({ s with completedParts := cp.set (part.partNumber - 1) (some part.partNumber) },
       none)
    else (s, some (.uploadPartFailed part.partNumber))

/-- `seterr`: the source's thread-safe but unconditional assignment
`u.err = e`. -/
def seterr (s : WState) (e : WErr) : WState :=
  { s with err := some e }

/-- `S3UploadWorkers.uploadPart`, run synchronously on the part at index
`idx`: skip parts not in state Full; otherwise upload, return the buffer
to the pool, set the terminal state, and on failure store the error in
the writer via `seterr`. -/
def workerUploadPart (beh : S3Behavior) (s : WState) (idx : Nat) : WState :=
  match s.parts.get? idx with
  | some (some part) =>
    if part.state ≠ .full then s
    else
      let (s, e) := s3UploadPart beh s part
      let s := { s with trace := s.trace ++ [Event.poolPut] }
      match e with
      | some e =>
        let s := { s with parts := s.parts.set idx (some { part with state := .errorSending }) }
        seterr s e
      | none =>
        { s with parts := s.parts.set idx (some { part with state := .sent }) }
  | _ => s

/-- `enqueueUpload(part)` for the part at index `idx`: for a part below
state Full, create the multipart upload if none is open (propagating a
creation failure), mark the part Full and hand it to a worker; the model
runs the worker synchronously.  Context cancellation of the channel send
is not modelled. -/
def enqueueUpload (beh : S3Behavior) (s : WState) (idx : Nat) : WState × Option WErr :=
  match s.parts.get? idx with
  | some (some part) =>
    if part.state.toNat < S3PartUploadState.full.toNat then
      let (s, e) :=
        match s.multiPartUploadID with
        | none => s3CreateMultipartUpload beh s
        | some _ => (s, none)
      match e with
      | some e => (s, some e)
      | none =>
        let s := { s with parts := s.parts.set idx (some { part with state := .full }) }
        (workerUploadPart beh s idx, none)
    else (s, none)
  | _ => (s, none)

/-- One step of `closePartsInStateAdding`'s loop body for index `i`:
a part in state Adding has its buffer returned to the pool and becomes
Cancelled. -/
def closePartsStep (acc : WState × Nat) (i : Nat) : WState × Nat :=
  let (s, pending) := acc
  match s.parts.get? i with
  | some (some part) =>
    if part.state = .adding then
      ({ s with parts := s.parts.set i (some { part with state := .cancelled })
                trace := s.trace ++ [Event.poolPut] },
       pending + 1)
    else (s, pending)
  | _ => (s, pending)

/-- `closePartsInStateAdding`: walk the part vector from the highest index
down, cancelling parts still in state Adding, and report how many were
cancelled. -/
def closePartsInStateAdding (s : WState) : WState × Nat :=
  (List.range s.parts.length).reverse.foldl closePartsStep (s, 0)

/-- The part allocated on first touch of part index `partNumber`: a
zeroed pool buffer of `partSize` bytes, 1-based part number, empty
filled ranges, state Adding. -/
def freshPart (cfg : WConfig) (partNumber : Nat) : S3PartToUpload :=
  { content := List.replicate cfg.partSize 0
    partNumber := partNumber + 1
    o := { partSize := cfg.partSize, ranges := [] }
    state := .adding }

/-- The `for pending > 0` loop of `WriteAt`.  `partNumber` is the current
part index, `partOffset` the intra-part offset, `bufOffset`/`pending` the
cursor into `buf`.  The loop allocates an absent part from the pool,
copies the slice `buf[bufOffset : bufOffset+partCopied]` into parts whose
state is below Full, and enqueues a part that becomes full.  Pool-get and
enqueue failures abort the multipart upload, cancel Adding parts, set the
writer error and leave the loop.  `fuel` only bounds the iteration count
(each iteration consumes at least one byte whenever `partSize > 0`, so
`pending + 1` fuel is exact; the source loops forever on `partSize = 0`,
where this model reports `fuelOut`). -/
def writeAtLoop (beh : S3Behavior) (cfg : WConfig) :
    Nat → WState → List Nat → Nat → Nat → Nat → Nat → WState × Option WErr
  | 0, s, _, _, _, _, _ => (s, some .fuelOut)
  | fuel + 1, s, buf, partNumber, partOffset, bufOffset, pending =>
    if pending = 0 then (s, none)
    else
      let alloc : WState × Option S3PartToUpload :=
        match s.parts.get? partNumber with
        | some (some p) => (s, some p)
        | _ =>
          if beh.poolGetOk then
            let p : S3PartToUpload := freshPart cfg partNumber
            ({ s with parts := s.parts.set partNumber (some p)
                      trace := s.trace ++ [Event.poolGet] },
             some p)
          else (s, none)
      match alloc with
      | (s, none) =>
        let s := s3AbortMultipartUpload s
        let s := (closePartsInStateAdding s).1
        (seterr s .poolGetFailed, some .poolGetFailed)
      | (s, some part) =>
        let partOffsetFinal := min (partOffset + pending) cfg.partSize
        let partCopied := partOffsetFinal - partOffset
        let next := fun (s : WState) =>
          writeAtLoop beh cfg fuel s buf (partNumber + 1) 0
            (bufOffset + partCopied) (pending - partCopied)
        if part.state.toNat < S3PartUploadState.full.toNat then
          let part := part.copyIn ((buf.drop bufOffset).take partCopied)
                        partOffset partOffsetFinal
          let s := { s with parts := s.parts.set partNumber (some part) }
          if part.isFull then
            match enqueueUpload beh s partNumber with
            | (s, some e) =>
              let s := s3AbortMultipartUpload s
              let s := (closePartsInStateAdding s).1
              (seterr s e, some e)
            | (s, none) => next s
          else next s
        else next s

/-- The part-vector growth step of `WriteAt`: when the vector does not
yet cover the final touched part index, reallocate it with nil slots up
to that index. -/
def extendParts (s : WState) (partNumberFinal : Nat) : WState :=
  if s.parts.length ≤ partNumberFinal then
    { s with parts := s.parts ++
        List.replicate (partNumberFinal + 1 - s.parts.length) none }
  else s

/-- `S3MultipartUploadWriter.WriteAt(buf, off)`: returns the new writer
state, the reported byte count and the error.  A pre-existing writer
error or a max-object-size violation aborts, cancels Adding parts,
records the error and reports `(0, err)`; otherwise the part vector is
grown to cover the final part and the copy loop runs, after which the
call reports `(len(buf), nil)`. -/
def writeAt (beh : S3Behavior) (cfg : WConfig) (s : WState) (buf : List Nat)
    (off : Nat) : WState × Nat × Option WErr :=
  let pending := buf.length
  let offFinal := off + pending
  let err : Option WErr :=
    match s.err with
    | some e => some e
    | none =>
      if 0 ≤ cfg.maxObjectSize ∧ (offFinal : Int) > cfg.maxObjectSize then
        some .tooLarge
      else none
  match err with
  | some e =>
    let s := s3AbortMultipartUpload s
    let s := (closePartsInStateAdding s).1
    (seterr s e, 0, some e)
  | none =>
    let partNumberFinal := (off + pending - 1) / cfg.partSize
    let s := { s with infoSize := max s.infoSize offFinal }
    let s := extendParts s partNumberFinal
    match writeAtLoop beh cfg (pending + 1) s buf (off / cfg.partSize)
            (off % cfg.partSize) 0 pending with
    | (s, some e) => (s, 0, some e)
    | (s, none) => (s, buf.length, none)

/-- The body of `S3MultipartUploadWriter.Close` after the phantom-map
removal: either PUT the single part (when exactly one part exists and no
multipart upload is open) or enqueue the trailing part, drain the
workers, fail on parts still in state Adding, re-read the writer error
and complete the multipart upload.  Any failure aborts the multipart
upload and cancels remaining Adding parts.  (The source dereferences a
nil single part; the model reports `nilPart` there.) -/
def closeInner (beh : S3Behavior) (s : WState) : WState × Option WErr :=
  match s.err with
  | some e => (s, some e)
  | none =>
    if s.parts.length = 1 ∧ s.multiPartUploadID = none then
      match s.parts.get? 0 with
      | some (some part) =>
        match part.getContent with
        | some content =>
          let (s, e) := s3PutObject beh s content
          let s := { s with trace := s.trace ++ [Event.poolPut] }
          let newState : S3PartUploadState :=
            if e = none then .sent else .errorSending
          ({ s with parts := s.parts.set 0 (some { part with state := newState }) }, e)
        | none =>
          let s := { s with trace := s.trace ++ [Event.poolPut]
                            parts := s.parts.set 0
                              (some { part with state := .errorSending }) }
          (s, some (.incompletePart part.partNumber))
      | _ => (s, some .nilPart)
    else
      match enqueueUpload beh s (s.parts.length - 1) with
      | (s, none) =>
        let (s, pendingN) := closePartsInStateAdding s
        if pendingN > 0 then (s, some (.pendingParts pendingN))
        else
          match s.err with
          | some e => (s, some e)
          | none => s3CompleteMultipartUpload beh s
      | (s, some e) => (s, some e)

def closeCore (beh : S3Behavior) (s : WState) : WState × Option WErr :=
  match closeInner beh s with
  | (s, some e) =>
    let s := s3AbortMultipartUpload s
    let s := (closePartsInStateAdding s).1
    (s, some e)
  | (s, none) => (s, none)

/-- `S3MultipartUploadWriter.Close`: the phantom entry is removed from
the `PhantomObjectMap` first, before any of `closeCore`'s work. -/
def close (beh : S3Behavior) (s : WState) : WState × Option WErr :=
  closeCore beh
    { s with phantom := false, trace := s.trace ++ [Event.phantomRemove] }

/-! ## S3GetObjectOutputReader -/

/-- Reader errors: the out-of-range rejection, end of file, and the
context-cancellation error (the latter is never produced by this model,
which does not model cancellation). -/
inductive RErr
  | outOfRange
  | eof
deriving DecidableEq, Repr

/-- `S3GetObjectOutputReader`: `body` is what remains of the one-shot GET
body stream, `spooled` the sliding window whose first byte sits at
absolute object offset `spoolOffset`, and `noMore` records that the body
reported EOF. -/
structure Reader where
  body : List Nat
  lookback : Nat
  minChunkSize : Nat
  spooled : List Nat := []
  spoolOffset : Nat := 0
  noMore : Bool := false
deriving DecidableEq, Repr

/-- Go's `copy(dst[i:], src)` when `src` fits: overwrite `dst` from
index `i` with `src`, clipped to the length of `dst`. -/
def overwriteAt (dst : List Nat) (i : Nat) (src : List Nat) : List Nat :=
  goCopySlice dst i dst.length src

/-- `S3GetObjectOutputReader.ReadAt(buf, off)` on a zeroed destination
buffer of length `bufLen`; returns the new reader, the final buffer
contents and `(n, err)`.  `io.ReadFull` on the body returns short (and
only then reports EOF, setting `noMore`) exactly when the stream has
fewer bytes than requested. -/
def readAt (rd : Reader) (bufLen : Nat) (off : Nat) :
    Reader × List Nat × Nat × Option RErr :=
  let buf := List.replicate bufLen 0
  if off < rd.spoolOffset then (rd, buf, 0, some .outOfRange)
  else
    let s := off - rd.spoolOffset
    let i := 0
    let r := bufLen
    let (buf, i, s, r) :=
      if s < rd.spooled.length then
        let n := min r (rd.spooled.length - s)
        (overwriteAt buf i ((rd.spooled.drop s).take n), i + n, s + n, r - n)
      else (buf, i, s, r)
    if r = 0 then (rd, buf, i, none)
    else if rd.noMore then
      if i = 0 then (rd, buf, 0, some .eof) else (rd, buf, i, none)
    else
      let (rd, s) :=
        if s ≤ rd.spooled.length ∧ rd.lookback ≤ s then
          ({ rd with spooled := rd.spooled.drop (s - rd.lookback)
                     spoolOffset := rd.spoolOffset + (s - rd.lookback) },
           rd.lookback)
        else (rd, s)
      let e := if rd.spooled.length + rd.minChunkSize < s + r then s + r
               else rd.spooled.length + rd.minChunkSize
      let want := e - rd.spooled.length
      let n := min want rd.body.length
      let rd := { rd with
        spooled := rd.spooled ++ rd.body.take n
        body := rd.body.drop n
        noMore := rd.noMore || decide (n < want) }
      let e := rd.spooled.length
      if s < e then
        let be := min e (s + r)
        (rd, overwriteAt buf i ((rd.spooled.drop s).take (be - s)), be - s, none)
      else (rd, buf, 0, some .eof)

/-! ## aclToMode -/

/-- `aws_s3.Grantee` as used by `aclToMode`: optional canonical id and
optional group URI. -/
structure Grantee where
  id : Option String
  uri : Option String
deriving DecidableEq, Repr

/-- `aws_s3.Grant` as used by `aclToMode`: optional grantee and the
permission string (dereferenced unconditionally by the source). -/
structure Grant where
  grantee : Option Grantee
  permission : String
deriving DecidableEq, Repr

def authenticatedUsersURI : String :=
  "http://acs.amazonaws.com/groups/global/AuthenticatedUsers"

def allUsersURI : String :=
  "http://acs.amazonaws.com/groups/global/AllUsers"

/-- The body of `aclToMode`'s loop: `v |= bits` following the source's
if / else-if chain (owner-id match first, group URIs otherwise). -/
def aclToModeStep (ownerId : String) (v : Nat) (g : Grant) : Nat :=
  match g.grantee with
  | none => v
  | some gr =>
    let idMatches : Bool := match gr.id with
      | some gid => gid == ownerId
      | none => false
    if idMatches then
      match g.permission with
      | "READ" => v ||| 0o400
      | "WRITE" => v ||| 0o200
      | "FULL_CONTROL" => v ||| 0o600
      | _ => v
    else
      match gr.uri with
      | some uri =>
        if uri = authenticatedUsersURI then
          match g.permission with
          | "READ" => v ||| 0o440
          | "WRITE" => v ||| 0o220
          | "FULL_CONTROL" => v ||| 0o660
          | _ => v
        else if uri = allUsersURI then
          match g.permission with
          | "READ" => v ||| 0o444
          | "WRITE" => v ||| 0o222
          | "FULL_CONTROL" => v ||| 0o666
          | _ => v
        else v
      | none => v

/-- `aclToMode(owner, grants)`: fold the loop body over the grant list
starting from mode 0. -/
def aclToMode (ownerId : String) (grants : List Grant) : Nat :=
  grants.foldl (aclToModeStep ownerId) 0

/-- The per-grant contribution as the claim states it: owner-id grants
give owner bits, the AuthenticatedUsers URI owner+group bits, the
AllUsers URI all bits, everything else nothing (with the source's
precedence: an owner-id match is tested before the URIs). -/
def grantContribution (ownerId : String) (g : Grant) : Nat :=
  match g.grantee with
  | none => 0
  | some gr =>
    let idMatches : Bool := match gr.id with
      | some gid => gid == ownerId
      | none => false
    if idMatches then
      match g.permission with
      | "READ" => 0o400
      | "WRITE" => 0o200
      | "FULL_CONTROL" => 0o600
      | _ => 0
    else
      match gr.uri with
      | some uri =>
        if uri = authenticatedUsersURI then
          match g.permission with
          | "READ" => 0o440
          | "WRITE" => 0o220
          | "FULL_CONTROL" => 0o660
          | _ => 0
        else if uri = allUsersURI then
          match g.permission with
          | "READ" => 0o444
          | "WRITE" => 0o222
          | "FULL_CONTROL" => 0o666
          | _ => 0
        else 0
      | none => 0

/-! ## S3ObjectLister -/

/-- `os.ModeDir` (bit 31 of Go's `os.FileMode`). -/
def modeDir : Nat := 2 ^ 31

/-- `ObjectFileInfo`: name, modification time (seconds), size and mode
bits. -/
structure FileInfoM where
  name : String
  lastModified : Nat
  size : Nat
  mode : Nat
deriving DecidableEq, Repr

/-- Split a character list at every slash (used to model `path.Base`). -/
def splitSlash : List Char → List (List Char)
  | [] => [[]]
  | c :: rest =>
    if c = '/' then [] :: splitSlash rest
    else
      match splitSlash rest with
      | seg :: segs => (c :: seg) :: segs
      | [] => [[c]]

/-- Go's `path.Base`: last slash-separated segment after stripping
trailing slashes; `"/"` for an all-slash path and `"."` for the empty
string. -/
def pathBase (s : String) : String :=
  match ((splitSlash s.data).filter (fun seg => seg ≠ [])).getLast? with
  | some seg => String.mk seg
  | none => if s.data = [] then "." else "/"

/-- One page of a `ListObjectsV2` answer: the common prefixes, the
contents as (key, size, lastModified) triples.  The next continuation
token of page `k` is `some (k+1)` when a further page exists. -/
structure Page where
  commonPrefixes : List String := []
  contents : List (String × Nat × Nat) := []
deriving DecidableEq, Repr

/-- The lister's environment: the successive listing pages (the
continuation token is the page index; `none` fetches page 0), and the
phantom uploads under the listed prefix as (base-name, size,
lastModified) triples. -/
structure ListEnv where
  pages : List Page
  phantoms : List (String × Nat × Nat) := []
deriving DecidableEq, Repr

/-- Lister errors. -/
inductive LErr
  | outOfRange
  | eof
deriving DecidableEq, Repr

/-- `S3ObjectLister` state. -/
structure ListerState where
  lookback : Nat
  spooled : List FileInfoM := []
  spoolOffset : Nat := 0
  continuation : Option Nat := none
  noMore : Bool := false
deriving DecidableEq, Repr

/-- The directory entry a common prefix becomes: mode `0755|DIR`,
epoch+1 timestamp, size 0. -/
def dirEntryOfPrefix (p : String) : FileInfoM :=
  { name := pathBase p, lastModified := 1, size := 0, mode := 0o755 ||| modeDir }

/-- The regular entry an object becomes: mode `0644`. -/
def fileEntryOfContent (c : String × Nat × Nat) : FileInfoM :=
  { name := pathBase c.1, lastModified := c.2.2, size := c.2.1, mode := 0o644 }

/-- The synthetic `.` and `..` entries injected on the initial page. -/
def dotEntries : List FileInfoM :=
  [{ name := ".", lastModified := 1, size := 0, mode := 0o755 ||| modeDir },
   { name := "..", lastModified := 1, size := 0, mode := 0o755 ||| modeDir }]

/-- The entry a phantom upload becomes: mode `0600`. -/
def phantomEntry (p : String × Nat × Nat) : FileInfoM :=
  { name := p.1, lastModified := p.2.2, size := p.2.1, mode := 0o600 }

/-- `S3ObjectLister.ListAt(result, o)` with a destination of `resultLen`
slots: returns the new lister state, the entries written into the
destination (a prefix of it) and `(n, err)`.  Listing pages always
succeed in this model. -/
def listAt (env : ListEnv) (L : ListerState) (resultLen : Nat) (o : Nat) :
    ListerState × List FileInfoM × Nat × Option LErr :=
  if o < L.spoolOffset then (L, [], 0, some .outOfRange)
  else
    let s := o - L.spoolOffset
    let (out, i, s) :=
      if s < L.spooled.length then
        let n := min resultLen (L.spooled.length - s)
        ((L.spooled.drop s).take n, n, L.spooled.length)
      else ([], 0, s)
    if resultLen ≤ i then (L, out, i, none)
    else if L.noMore then
      if i = 0 then (L, out, 0, some .eof) else (L, out, i, none)
    else
      let (L, s) :=
        if s ≤ L.spooled.length ∧ L.lookback ≤ s then
          ({ L with spooled := L.spooled.drop (s - L.lookback)
                    spoolOffset := L.spoolOffset + (s - L.lookback) },
           L.lookback)
        else (L, s)
      let L :=
        if L.continuation = none then
          { L with spooled := L.spooled ++ dotEntries ++
              env.phantoms.map phantomEntry }
        else L
      let idx := L.continuation.getD 0
      let page := env.pages.getD idx {}
      let L :=
        if L.continuation = none then
          { L with spooled := L.spooled ++ page.commonPrefixes.map dirEntryOfPrefix }
        else L
      let L := { L with spooled := L.spooled ++ page.contents.map fileEntryOfContent }
      let next := if idx + 1 < env.pages.length then some (idx + 1) else none
      let L := { L with continuation := next, noMore := next = none }
      let (n, err) :=
        if resultLen - i < L.spooled.length - s then (resultLen - i, none)
        else (L.spooled.length - s,
              if L.noMore then some LErr.eof else none)
      (L, out ++ (L.spooled.drop s).take n, i + n, err)

/-! ## S3ObjectStat -/

/-- Stat errors. -/
inductive SErr
  | outOfRange
  | notExist
deriving DecidableEq, Repr

/-- The answers `S3ObjectStat.ListAt` receives from S3: the object ACL
(owner id and grants, `none` on error), the HEAD answer (content length
and last-modified, `none` on error), and the listing probe's common
prefixes (`none` on error). -/
structure StatEnv where
  acl : Option (String × List Grant)
  head : Option (Nat × Nat)
  listCommonPrefixes : Option (List String)
deriving Repr

/-- The fixed inputs of one `S3ObjectStat`: whether `Key.IsRoot()`, the
`Root` flag (key equals the bucket/session prefix), the key's base name,
and the phantom-map answer for the key. -/
structure StatCfg where
  keyIsRoot : Bool
  root : Bool
  keyBase : String
  phantom : Option (String × Nat × Nat)
deriving DecidableEq, Repr

/-- `S3ObjectStat.ListAt(result, o)`: returns `(n, result[0], err)`. -/
def statListAt (env : StatEnv) (cfg : StatCfg) (resultLen : Nat) (o : Nat) :
    Nat × Option FileInfoM × Option SErr :=
  if resultLen = 0 then (0, none, none)
  else if 0 < o then (0, none, some .outOfRange)
  else if cfg.keyIsRoot then
    (1, some { name := "/", lastModified := 0, size := 0, mode := 0o755 ||| modeDir },
     none)
  else
    match cfg.phantom with
    | some ph => (1, some (phantomEntry ph), none)
    | none =>
      match env.acl with
      | some (ownerId, grants) =>
        let info : FileInfoM :=
          match env.head with
          | some (len, lm) =>
            { name := cfg.keyBase, lastModified := lm, size := len
              mode := aclToMode ownerId grants }
          | none =>
            { name := cfg.keyBase, lastModified := 0, size := 0
              mode := aclToMode ownerId grants }
        (1, some info, none)
      | none =>
        match env.listCommonPrefixes with
        | none => (0, none, some .notExist)
        | some cps =>
          if ¬cfg.root ∧ cps = [] then (0, none, some .notExist)
          else
            (1, some { name := cfg.keyBase, lastModified := 0, size := 0
                       mode := 0o755 ||| modeDir }, none)

/-! ## Event counting -/

/-- Does this event denote a PutObject API call? -/
def Event.isPut : Event → Bool
  | .putObject _ => true
  | _ => false

/-- Does this event denote one of the multipart API calls
(CreateMultipartUpload, UploadPart, CompleteMultipartUpload,
AbortMultipartUpload)? -/
def Event.isMultipart : Event → Bool
  | .createMultipartUpload => true
  | .uploadPart _ _ => true
  | .completeMultipartUpload _ => true
  | .abortMultipartUpload => true
  | _ => false

/-- Does this event denote an AbortMultipartUpload API call? -/
def Event.isAbort : Event → Bool
  | .abortMultipartUpload => true
  | _ => false

/-- Does this event denote a buffer being returned to the pool? -/
def Event.isPoolPut : Event → Bool
  | .poolPut => true
  | _ => false

/-- Does this event denote a buffer being taken from the pool? -/
def Event.isPoolGet : Event → Bool
  | .poolGet => true
  | _ => false

/-- Number of events satisfying `p` in a trace. -/
def countEvents (p : Event → Bool) (t : List Event) : Nat :=
  (t.filter p).length

/-- A writer with part size 4. -/
def cfg4 : WConfig := { partSize := 4 }

/-- `s'` is reachable from `s` by operations that only append to the
trace and never touch the phantom flag. -/
def TraceExt (s s' : WState) : Prop :=
  s'.phantom = s.phantom ∧ ∃ t, s'.trace = s.trace ++ t

/-- A part whose state is already past Full (here Sent), with a full
4-byte buffer. -/
def pFull : S3PartToUpload :=
  { content := [1, 2, 3, 4], partNumber := 1
    o := { partSize := 4, ranges := [(0, 4)] }, state := .sent }

/-- A writer holding only `pFull`. -/
def sFull : WState := { parts := [some pFull] }

def statClaimConclusion (env : StatEnv) (cfg : StatCfg) (resultLen : Nat) : Prop :=
  (∀ ownerId grants, env.acl = some (ownerId, grants) →
    ∃ info, statListAt env cfg resultLen 0 = (1, some info, none) ∧
      info.name = cfg.keyBase ∧
      info.mode = aclToMode ownerId grants ∧
      (∀ len lm, env.head = some (len, lm) →
        info.size = len ∧ info.lastModified = lm) ∧
      (env.head = none → info.size = 0 ∧ info.lastModified = 0)) ∧
  (env.acl = none →
    (env.listCommonPrefixes = none →
      statListAt env cfg resultLen 0 = (0, none, some SErr.notExist)) ∧
    (∀ cps, env.listCommonPrefixes = some cps →
      (cfg.root = false ∧ cps = [] →
        statListAt env cfg resultLen 0 = (0, none, some SErr.notExist)) ∧
      ((cfg.root = true ∨ cps ≠ []) →
        statListAt env cfg resultLen 0 =
          (1, some { name := cfg.keyBase, lastModified := 0, size := 0
                     mode := 0o755 ||| modeDir }, none))))

/-- A stat environment: ACL grants FULL_CONTROL to the owner and READ to
AllUsers, HEAD answers (42, 99), the listing probe fails. -/
def envF : StatEnv :=
  { acl := some ("own",
      [{ grantee := some { id := some "own", uri := none }
         permission := "FULL_CONTROL" },
       { grantee := some { id := none, uri := some allUsersURI }
         permission := "READ" }])
    head := some (42, 99)
    listCommonPrefixes := none }

/-- A non-root, non-phantom stat target. -/
def cfgF : StatCfg :=
  { keyIsRoot := false, root := false, keyBase := "f.txt", phantom := none }

/-- A two-page listing whose continuation page has both a common prefix
and an object. -/
def envC5 : ListEnv :=
  { pages := [{ contents := [("a", 1, 1)] },
              { commonPrefixes := ["p/q/"], contents := [("p/b", 2, 3)] }] }

/-- A lister positioned on the continuation page. -/
def LC5 : ListerState :=
  { lookback := 0, spoolOffset := 3, continuation := some 1 }

/-- The writer state after `WriteAt("abcd",0)`, `WriteAt("ef",4)`,
`WriteAt("ijkl",8)` with part size 4: parts 1 and 3 are Sent, part 2 is
a partially filled Adding part. -/
def s3w : WState :=
  (writeAt allOk cfg4
    (writeAt allOk cfg4
      (writeAt allOk cfg4 mkWriter [97, 98, 99, 100] 0).1
      [101, 102] 4).1
    [105, 106, 107, 108] 8).1

/-- The Adding middle part of `s3w`. -/
def p3w : S3PartToUpload :=
  { content := [101, 102, 0, 0], partNumber := 2
    o := { partSize := 4, ranges := [(0, 2)] }, state := .adding }

/-- A writer that already holds an error and an open multipart upload. -/
def sErr4 : WState :=
  { parts := [some pFull], multiPartUploadID := some 1
    err := some .tooLarge }

/-- Invariant hypotheses of the `WriteAt` copy loop: the intra-part
offset is in range, the cursor splits the buffer, the part vector covers
the bytes still to write, and every part from the current index on is an
Adding part with the right part number and a pool-sized buffer. -/
def LoopHyp (cfg : WConfig) (s : WState) (buf : List Nat)
    (pn po bo pending : Nat) : Prop :=
  po < cfg.partSize ∧
  bo + pending = buf.length ∧
  pn * cfg.partSize + po + pending ≤ s.parts.length * cfg.partSize ∧
  (∀ j q, pn ≤ j → s.parts.get? j = some (some q) →
    q.state = .adding ∧ q.partNumber = j + 1 ∧
    q.content.length = cfg.partSize)

/-- Conclusion of the `WriteAt` copy loop: no error, the part vector
keeps its length, parts below the current index are untouched, and every
remaining buffer byte ends up in the part indexed by its absolute offset
divided by the part size, at the absolute offset modulo the part size,
in a part carrying part number index+1. -/
def LoopConcl (beh : S3Behavior) (cfg : WConfig) (fuel : Nat) (s : WState)
    (buf : List Nat) (pn po bo pending : Nat) : Prop :=
  (writeAtLoop beh cfg fuel s buf pn po bo pending).2 = none ∧
  (writeAtLoop beh cfg fuel s buf pn po bo pending).1.parts.length =
    s.parts.length ∧
  (∀ j, j < pn →
    (writeAtLoop beh cfg fuel s buf pn po bo pending).1.parts.get? j =
      s.parts.get? j) ∧
  (∀ k, bo ≤ k → k < buf.length →
    ∃ q, (writeAtLoop beh cfg fuel s buf pn po bo pending).1.parts.get?
        ((pn * cfg.partSize + po + (k - bo)) / cfg.partSize) =
        some (some q) ∧
      q.partNumber = (pn * cfg.partSize + po + (k - bo)) / cfg.partSize + 1 ∧
      q.content.get? ((pn * cfg.partSize + po + (k - bo)) % cfg.partSize) =
        buf.get? k)

/-! ## Claim theorems -/

/-- The loop body of `aclToMode` adds exactly the per-grant contribution. -/
theorem aclToModeStep_eq_lor (ownerId : String) (v : Nat) (g : Grant) :
    aclToModeStep ownerId v g = v ||| grantContribution ownerId g := by
  unfold aclToModeStep grantContribution
  cases g.grantee with
  | none => simp
  | some gr =>
    simp only
    split
    · split <;> simp
    · cases gr.uri with
      | none => simp
      | some uri =>
        simp only
        split
        · split <;> simp
        · split
          · split <;> simp
          · simp

/-- Folding the loop body from any accumulator ORs in the contributions
of all grants. -/
theorem aclToMode_foldl_eq (ownerId : String) (v : Nat) (gs : List Grant) :
    gs.foldl (aclToModeStep ownerId) v =
      v ||| gs.foldr (fun g a => grantContribution ownerId g ||| a) 0 := by
  induction gs generalizing v with
  | nil => simp
  | cons g gs ih =>
    simp only [List.foldl_cons, List.foldr_cons, aclToModeStep_eq_lor, ih,
      Nat.lor_assoc]

/-- C7 (confirmed): for every owner and finite grant list, the mode
computed by `aclToMode` is the bitwise OR of the per-grant contributions
(owner-id grants give `0400/0200/0600`, the AuthenticatedUsers URI
`0440/0220/0660`, the AllUsers URI `0444/0222/0666`, all other grants
nothing). -/
theorem aclToMode_is_or_of_contributions (ownerId : String) (gs : List Grant) :
    aclToMode ownerId gs =
      gs.foldr (fun g a => grantContribution ownerId g ||| a) 0 := by
  unfold aclToMode
  rw [aclToMode_foldl_eq]
  simp

/-- C1 (counterexample): a single `WriteAt` of exactly `partSize` bytes
(here 4, which is "at most P") fills the part, which is enqueued and
uploaded as a multipart part during `WriteAt`; `Close` then completes the
multipart upload.  Zero PutObject calls and three multipart calls are
made, contradicting the claimed one-PutObject / zero-multipart outcome;
`Close` still returns no error. -/
theorem writeAt_fullPart_uses_multipart :
    (let w := writeAt allOk cfg4 mkWriter [97, 98, 99, 100] 0
     let c := close allOk w.1
     w.2 = (4, none) ∧ c.2 = none ∧
     countEvents Event.isPut c.1.trace = 0 ∧
     countEvents Event.isMultipart c.1.trace = 3 ∧
     c.1.trace = [Event.poolGet, Event.createMultipartUpload,
                  Event.uploadPart 1 [97, 98, 99, 100], Event.poolPut,
                  Event.phantomRemove,
                  Event.completeMultipartUpload [some 1]]) := by
  decide

/-- C2 (code divergence, evaluated): the object is `"hello"`, lookback 2,
min chunk size 0.  The first `ReadAt` of 3 bytes at offset 0 returns
`(3, nil)` with `"hel"`.  The second `ReadAt` of 3 bytes at offset 2
places `"llo"` — the object's bytes at `[2,5)` — into the buffer but
returns `n = 2`, not the claimed 3: the final return statement reports
only `be - s`, dropping the `i` bytes copied from the spool earlier in
the same call.  The third `ReadAt` at offset 5 returns `(0, EOF)`. -/
theorem readAt_hello_scenario :
    (let rd : Reader := { body := [104, 101, 108, 108, 111], lookback := 2
                          minChunkSize := 0 }
     let c1 := readAt rd 3 0
     let c2 := readAt c1.1 3 2
     let c3 := readAt c2.1 1 5
     c1.2 = ([104, 101, 108], 3, none) ∧
     c2.2.1 = [108, 108, 111] ∧ c2.2.2 = (2, none) ∧
     c3.2.2 = (0, some RErr.eof)) := by
  decide

/-- C3 (counterexample): `WriteAt("abcd", 0)` and `WriteAt("ij", 8)` leave
the byte range `[4,8)` of `[0, 10)` unwritten, yet the gap's part (index
1) was never allocated, so it is not in state Adding and `Close`'s gap
check does not see it: `Close` returns no error, completes the multipart
upload with a nil completed-part slot, and aborts nothing. -/
theorem close_ignores_nil_part_gap :
    (let w1 := writeAt allOk cfg4 mkWriter [97, 98, 99, 100] 0
     let w2 := writeAt allOk cfg4 w1.1 [105, 106] 8
     let c := close allOk w2.1
     w2.1.infoSize = 10 ∧ w2.1.parts.get? 1 = some none ∧
     c.2 = none ∧
     countEvents Event.isAbort c.1.trace = 0 ∧
     c.1.trace.get? (c.1.trace.length - 1) =
       some (Event.completeMultipartUpload [some 1, none, some 3])) := by
  decide

/-- C4 (counterexample): with an S3 that fails every UploadPart, a single
`WriteAt` of 8 bytes fills parts 1 and 2; the worker's failure on part 1
sets the writer error, and the worker's failure on part 2 overwrites it
(`seterr` assigns unconditionally), so the stored error is the second
one, not the first: the first error does not win. -/
theorem worker_error_overwrites_previous :
    (let behFail : S3Behavior := { uploadPartOk := fun _ => false }
     let w := writeAt behFail cfg4 mkWriter [1, 2, 3, 4, 5, 6, 7, 8] 0
     w.1.err = some (WErr.uploadPartFailed 2) ∧
     w.1.trace = [Event.poolGet, Event.createMultipartUpload,
                  Event.uploadPart 1 [1, 2, 3, 4], Event.poolPut,
                  Event.poolGet, Event.uploadPart 2 [5, 6, 7, 8],
                  Event.poolPut] ∧
     w.2 = (8, none)) := by
  decide

theorem TraceExt.rfl (s : WState) : TraceExt s s :=
  ⟨by rfl, [], (List.append_nil _).symm⟩

theorem TraceExt.trans {a b c : WState} (h1 : TraceExt a b) (h2 : TraceExt b c) :
    TraceExt a c := by
  obtain ⟨hp1, t1, ht1⟩ := h1
  obtain ⟨hp2, t2, ht2⟩ := h2
  exact ⟨hp2.trans hp1, t1 ++ t2, by rw [ht2, ht1, List.append_assoc]⟩

theorem traceExt_setTrace (s : WState) (more : List Event)
    (s' : WState) (hp : s'.phantom = s.phantom)
    (ht : s'.trace = s.trace ++ more) : TraceExt s s' :=
  ⟨hp, more, ht⟩

theorem traceExt_s3CreateMultipartUpload (beh : S3Behavior) (s : WState) :
    TraceExt s (s3CreateMultipartUpload beh s).1 := by
  unfold s3CreateMultipartUpload
  split <;> exact ⟨by rfl, [Event.createMultipartUpload], by rfl⟩

theorem traceExt_s3PutObject (beh : S3Behavior) (s : WState) (content : List Nat) :
    TraceExt s (s3PutObject beh s content).1 := by
  unfold s3PutObject
  split <;> exact ⟨by rfl, [Event.putObject content], by rfl⟩

theorem traceExt_s3AbortMultipartUpload (s : WState) :
    TraceExt s (s3AbortMultipartUpload s) := by
  unfold s3AbortMultipartUpload
  split
  · exact ⟨by rfl, [Event.abortMultipartUpload], by rfl⟩
  · exact TraceExt.rfl s

theorem traceExt_s3CompleteMultipartUpload (beh : S3Behavior) (s : WState) :
    TraceExt s (s3CompleteMultipartUpload beh s).1 := by
  unfold s3CompleteMultipartUpload
  split <;> exact ⟨by rfl, [Event.completeMultipartUpload s.completedParts], by rfl⟩

theorem traceExt_s3UploadPart (beh : S3Behavior) (s : WState) (part : S3PartToUpload) :
    TraceExt s (s3UploadPart beh s part).1 := by
  unfold s3UploadPart
  split
  · exact TraceExt.rfl s
  · dsimp only
    split
    · exact ⟨rfl, _, rfl⟩
    · exact ⟨rfl, _, rfl⟩


theorem traceExt_seterr (s : WState) (e : WErr) : TraceExt s (seterr s e) :=
  ⟨by rfl, [], (List.append_nil _).symm⟩

theorem traceExt_workerUploadPart (beh : S3Behavior) (s : WState) (idx : Nat) :
    TraceExt s (workerUploadPart beh s idx) := by
  unfold workerUploadPart
  split
  case h_1 part heq =>
    split
    · exact TraceExt.rfl s
    · dsimp only
      split
      · exact TraceExt.trans (traceExt_s3UploadPart beh s part) ⟨rfl, _, rfl⟩
      · exact TraceExt.trans (traceExt_s3UploadPart beh s part) ⟨rfl, _, rfl⟩
  case h_2 => exact TraceExt.rfl s


theorem traceExt_enqueueUpload (beh : S3Behavior) (s : WState) (idx : Nat) :
    TraceExt s (enqueueUpload beh s idx).1 := by
  unfold enqueueUpload
  split
  case h_1 part heq =>
    split
    · cases hID : s.multiPartUploadID with
      | none =>
        dsimp only
        split
        · exact traceExt_s3CreateMultipartUpload beh s
        · refine TraceExt.trans (traceExt_s3CreateMultipartUpload beh s) ?_
          refine TraceExt.trans ?_ (traceExt_workerUploadPart beh _ idx)
          exact ⟨rfl, [], (List.append_nil _).symm⟩
      | some v =>
        dsimp only
        refine TraceExt.trans ?_ (traceExt_workerUploadPart beh _ idx)
        exact ⟨rfl, [], (List.append_nil _).symm⟩
    · exact TraceExt.rfl s
  case h_2 => exact TraceExt.rfl s


theorem traceExt_closePartsStep (acc : WState × Nat) (i : Nat) :
    TraceExt acc.1 (closePartsStep acc i).1 := by
  obtain ⟨s0, p0⟩ := acc
  unfold closePartsStep
  dsimp only
  split
  · split
    · exact ⟨rfl, _, rfl⟩
    · exact TraceExt.rfl s0
  · exact TraceExt.rfl s0

theorem traceExt_foldl_closePartsStep (l : List Nat) (acc : WState × Nat) :
    TraceExt acc.1 (l.foldl closePartsStep acc).1 := by
  induction l generalizing acc with
  | nil => exact TraceExt.rfl acc.1
  | cons i l ih =>
    exact TraceExt.trans (traceExt_closePartsStep acc i) (ih _)

theorem traceExt_closePartsInStateAdding (s : WState) :
    TraceExt s (closePartsInStateAdding s).1 :=
  traceExt_foldl_closePartsStep _ _

theorem traceExt_closeInner (beh : S3Behavior) (s : WState) :
    TraceExt s (closeInner beh s).1 := by
  unfold closeInner
  split
  · exact TraceExt.rfl s
  · split
    · split
      case _ part heq =>
        split
        · dsimp only
          exact TraceExt.trans (traceExt_s3PutObject beh s _) ⟨rfl, _, rfl⟩
        · exact ⟨rfl, _, rfl⟩
      case _ => exact TraceExt.rfl s
    · split
      case _ s1 heq =>
        have h1 : TraceExt s s1 := by
          have h := traceExt_enqueueUpload beh s (s.parts.length - 1)
          rw [heq] at h
          exact h
        dsimp only
        split
        · exact TraceExt.trans h1 (traceExt_closePartsInStateAdding s1)
        · split
          · exact TraceExt.trans h1 (traceExt_closePartsInStateAdding s1)
          · refine TraceExt.trans h1 ?_
            refine TraceExt.trans (traceExt_closePartsInStateAdding s1) ?_
            exact traceExt_s3CompleteMultipartUpload beh _
      case _ s1 e heq =>
        have h := traceExt_enqueueUpload beh s (s.parts.length - 1)
        rw [heq] at h
        exact h

theorem traceExt_closeCore (beh : S3Behavior) (s : WState) :
    TraceExt s (closeCore beh s).1 := by
  unfold closeCore
  split
  case _ s1 e heq =>
    have h1 : TraceExt s s1 := by
      have := traceExt_closeInner beh s
      rw [heq] at this
      exact this
    exact TraceExt.trans h1
      (TraceExt.trans (traceExt_s3AbortMultipartUpload s1)
        (traceExt_closePartsInStateAdding _))
  case _ s1 heq =>
    have := traceExt_closeInner beh s
    rw [heq] at this
    exact this


/-- C9 (confirmed): `Close` removes the writer's phantom entry before any
other action: the events it appends to the trace begin with the
phantom-map removal, so any finalizing object-store call (PutObject or
CompleteMultipartUpload) issued by `Close` comes strictly after it, and
the phantom flag is false in the final state. -/
theorem close_removes_phantom_first (beh : S3Behavior) (s : WState) :
    (close beh s).1.phantom = false ∧
    ∃ rest, (close beh s).1.trace = s.trace ++ Event.phantomRemove :: rest := by
  unfold close
  have h := traceExt_closeCore beh
    { s with phantom := false, trace := s.trace ++ [Event.phantomRemove] }
  obtain ⟨hp, t, ht⟩ := h
  refine ⟨hp, t, ?_⟩
  rw [ht]
  simp


/-- C5 (counterexample): page 0 of the listing has one object `"p/a"` and
a continuation; page 1 has the common prefix `"p/q/"`.  The first
`ListAt` spools `.`, `..` and `a`; the second fetches the continuation
page but, because the continuation token is non-nil, skips its
CommonPrefixes entirely: no entry named `"q"` is ever spooled or
returned, and the call reports EOF. -/
theorem continuation_page_prefixes_dropped :
    (let env : ListEnv := { pages := [{ contents := [("p/a", 1, 7)] },
                                      { commonPrefixes := ["p/q/"] }] }
     let L0 : ListerState := { lookback := 0 }
     let l1 := listAt env L0 10 0
     let l2 := listAt env l1.1 10 3
     l1.2.1.map FileInfoM.name = [".", "..", "a"] ∧ l1.2.2 = (3, none) ∧
     l2.2 = ([], 0, some LErr.eof) ∧
     l2.1.spooled = [] ∧ l2.1.noMore = true) := by
  decide


theorem extendParts_noop (s : WState) (pnf : Nat)
    (h : pnf < s.parts.length) : extendParts s pnf = s := by
  unfold extendParts
  rw [if_neg (by omega)]

theorem extendParts_grow (s : WState) (pnf : Nat)
    (h : s.parts.length ≤ pnf) :
    extendParts s pnf =
      { s with parts := s.parts ++
          List.replicate (pnf + 1 - s.parts.length) none } := by
  unfold extendParts
  rw [if_pos h]

theorem writeAtLoop_pending_zero (beh : S3Behavior) (cfg : WConfig) (fuel : Nat)
    (s : WState) (buf : List Nat) (pn po bo : Nat) :
    writeAtLoop beh cfg (fuel + 1) s buf pn po bo 0 = (s, none) := rfl

theorem writeAtLoop_discard_step (beh : S3Behavior) (cfg : WConfig) (fuel : Nat)
    (s : WState) (buf : List Nat) (pn po bo pending : Nat) (p : S3PartToUpload)
    (hpart : s.parts.get? pn = some (some p))
    (hstate : S3PartUploadState.full.toNat ≤ p.state.toNat)
    (hpending : pending ≠ 0) :
    writeAtLoop beh cfg (fuel + 1) s buf pn po bo pending =
      writeAtLoop beh cfg fuel s buf (pn + 1) 0
        (bo + (min (po + pending) cfg.partSize - po))
        (pending - (min (po + pending) cfg.partSize - po)) := by
  conv_lhs => rw [writeAtLoop]
  rw [if_neg hpending, hpart]
  simp only
  rw [if_neg (by omega : ¬ p.state.toNat < S3PartUploadState.full.toNat)]

/-- C10: a WriteAt that touches only a part already at or past state Full
copies nothing, records no error, and still reports full success. -/
theorem writeAt_discards_into_full_part (beh : S3Behavior) (cfg : WConfig)
    (s : WState) (buf : List Nat) (i δ : Nat) (p : S3PartToUpload)
    (hδlen : δ + buf.length ≤ cfg.partSize)
    (hlen0 : 0 < buf.length)
    (herr : s.err = none)
    (hmax : ¬(0 ≤ cfg.maxObjectSize ∧
      ((i * cfg.partSize + δ + buf.length : Nat) : Int) > cfg.maxObjectSize))
    (hpart : s.parts.get? i = some (some p))
    (hstate : S3PartUploadState.full.toNat ≤ p.state.toNat) :
    writeAt beh cfg s buf (i * cfg.partSize + δ) =
      ({ s with infoSize := max s.infoSize (i * cfg.partSize + δ + buf.length) },
       buf.length, none) := by
  have hP : 0 < cfg.partSize := by omega
  have hδ : δ < cfg.partSize := by omega
  have hilen : i < s.parts.length := by
    by_contra h
    rw [List.get?_eq_none.mpr (by omega)] at hpart
    exact Option.noConfusion hpart
  have hdiv : (i * cfg.partSize + δ + buf.length - 1) / cfg.partSize = i := by
    have h1 : i * cfg.partSize + δ + buf.length - 1
        = (δ + buf.length - 1) + i * cfg.partSize := by omega
    rw [h1, Nat.add_mul_div_right _ _ hP, Nat.div_eq_of_lt (by omega)]
    omega
  have hdiv2 : (i * cfg.partSize + δ) / cfg.partSize = i := by
    have h1 : i * cfg.partSize + δ = δ + i * cfg.partSize := by omega
    rw [h1, Nat.add_mul_div_right _ _ hP, Nat.div_eq_of_lt hδ]
    omega
  have hmod : (i * cfg.partSize + δ) % cfg.partSize = δ := by
    have h1 : i * cfg.partSize + δ = δ + i * cfg.partSize := by omega
    rw [h1, Nat.add_mul_mod_self_right, Nat.mod_eq_of_lt hδ]
  obtain ⟨k, hk⟩ : ∃ k, buf.length = k + 1 := ⟨buf.length - 1, by omega⟩
  unfold writeAt
  rw [herr]
  simp only [hdiv, hdiv2, hmod, if_neg hmax]
  rw [extendParts_noop
    { s with err := none
             infoSize := max s.infoSize (i * cfg.partSize + δ + buf.length) }
    i hilen]
  rw [hk]
  rw [writeAtLoop_discard_step beh cfg (k + 1)
    { s with err := none
             infoSize := max s.infoSize (i * cfg.partSize + δ + (k + 1)) }
    buf i δ 0 (k + 1) p hpart hstate (by omega)]
  rw [show min (δ + (k + 1)) cfg.partSize = δ + (k + 1) by omega]
  rw [show δ + (k + 1) - δ = k + 1 by omega]
  rw [show k + 1 - (k + 1) = 0 by omega, writeAtLoop_pending_zero]


/-- Witness for C10 at a concrete input: writing 2 bytes at offset 0 into
a writer whose only part is already Sent leaves the state unchanged
(except `infoSize`) and reports `(2, nil)`. -/
theorem writeAt_discards_into_full_part_witness :
    S3PartUploadState.full.toNat ≤ pFull.state.toNat ∧
    writeAt allOk cfg4 sFull [9, 9] (0 * cfg4.partSize + 0) =
      ({ sFull with
          infoSize := max sFull.infoSize (0 * cfg4.partSize + 0 + [9, 9].length) },
       [9, 9].length, none) :=
  ⟨by decide,
   writeAt_discards_into_full_part allOk cfg4 sFull [9, 9] 0 0 pFull
     (by decide) (by decide) rfl (by decide) rfl (by decide)⟩


/-- C6: stat of a non-root, non-phantom key. -/
theorem statListAt_resolution (env : StatEnv) (cfg : StatCfg) (resultLen : Nat)
    (hroot : cfg.keyIsRoot = false) (hph : cfg.phantom = none)
    (hres : 0 < resultLen) :
    statClaimConclusion env cfg resultLen := by
  have hres0 : ¬ resultLen = 0 := by omega
  constructor
  · intro ownerId grants hacl
    cases hh : env.head with
    | some v =>
      refine ⟨{ name := cfg.keyBase, lastModified := v.2, size := v.1
                mode := aclToMode ownerId grants }, ?_, rfl, rfl, ?_, ?_⟩
      · simp [statListAt, hres0, hroot, hph, hacl, hh]
      · intro len lm h
        cases h
        exact ⟨rfl, rfl⟩
      · intro h
        simp at h
    | none =>
      refine ⟨{ name := cfg.keyBase, lastModified := 0, size := 0
                mode := aclToMode ownerId grants }, ?_, rfl, rfl, ?_, ?_⟩
      · simp [statListAt, hres0, hroot, hph, hacl, hh]
      · intro len lm h
        simp at h
      · intro _
        exact ⟨rfl, rfl⟩
  · intro hacl
    constructor
    · intro hlist
      simp [statListAt, hres0, hroot, hph, hacl, hlist]
    · intro cps hlist
      constructor
      · intro ⟨hr, hcps⟩
        simp [statListAt, hres0, hroot, hph, hacl, hlist, hr, hcps]
      · intro hor
        simp [statListAt, hres0, hroot, hph, hacl, hlist]
        intro hrf
        rcases hor with h | h
        · rw [hrf] at h
          exact Bool.noConfusion h
        · exact h


/-- Witness for C6 at a concrete input. -/
theorem statListAt_resolution_witness :
    (cfgF.keyIsRoot = false ∧ cfgF.phantom = none ∧ 0 < 1) ∧
    statClaimConclusion envF cfgF 1 :=
  ⟨⟨rfl, rfl, by decide⟩, statListAt_resolution envF cfgF 1 rfl rfl (by decide)⟩


/-- C5 (amended): the entries one `ListAt` call appends to the spool.
On the initial page (continuation nil) they are the dot entries, the
phantom entries, every CommonPrefixes entry as a `0755|DIR` directory
entry and every Contents entry as a `0644` regular entry, in the object
store's order; on a continuation page only the Contents entries. -/
theorem listAt_spool_shape (env : ListEnv) (L : ListerState) (resultLen : Nat)
    (hres : 0 < resultLen) (hnm : L.noMore = false)
    (hlb : L.lookback ≤ L.spooled.length) :
    (listAt env L resultLen (L.spoolOffset + L.spooled.length)).1.spooled =
      L.spooled.drop (L.spooled.length - L.lookback) ++
      (if L.continuation = none then
        dotEntries ++ env.phantoms.map phantomEntry ++
        (env.pages.getD 0 {}).commonPrefixes.map dirEntryOfPrefix
       else []) ++
      (env.pages.getD (L.continuation.getD 0) {}).contents.map fileEntryOfContent := by
  unfold listAt
  rw [if_neg (by omega : ¬ L.spoolOffset + L.spooled.length < L.spoolOffset)]
  rw [Nat.add_sub_cancel_left]
  dsimp only
  rw [if_neg (Nat.lt_irrefl _)]
  dsimp only
  rw [if_neg (by omega : ¬ resultLen ≤ 0), hnm]
  simp only [Bool.false_eq_true, if_false]
  rw [if_pos (And.intro (Nat.le_refl L.spooled.length) hlb)]
  dsimp only
  cases hc : L.continuation with
  | none => simp [hc, List.append_assoc]
  | some k => simp [hc, List.append_assoc]


/-- Witness for C5's amended statement at a concrete input: on the
continuation page only the Contents entry is appended. -/
theorem listAt_spool_shape_witness :
    ((0 : Nat) < 5 ∧ LC5.noMore = false ∧ LC5.lookback ≤ LC5.spooled.length) ∧
    (listAt envC5 LC5 5 (LC5.spoolOffset + LC5.spooled.length)).1.spooled =
      LC5.spooled.drop (LC5.spooled.length - LC5.lookback) ++
      (if LC5.continuation = none then
        dotEntries ++ envC5.phantoms.map phantomEntry ++
        (envC5.pages.getD 0 {}).commonPrefixes.map dirEntryOfPrefix
       else []) ++
      (envC5.pages.getD (LC5.continuation.getD 0) {}).contents.map fileEntryOfContent :=
  ⟨⟨by decide, rfl, by decide⟩,
   listAt_spool_shape envC5 LC5 5 (by decide) rfl (by decide)⟩


theorem writeAtLoop_alloc_copy_nofull (beh : S3Behavior) (cfg : WConfig)
    (fuel : Nat) (s : WState) (buf : List Nat) (pn po bo pending : Nat)
    (hget : s.parts.get? pn = some none)
    (hpool : beh.poolGetOk = true)
    (hpending : pending ≠ 0)
    (hnotfull : ((freshPart cfg pn).copyIn
        ((buf.drop bo).take (min (po + pending) cfg.partSize - po)) po
        (min (po + pending) cfg.partSize)).isFull = false) :
    writeAtLoop beh cfg (fuel + 1) s buf pn po bo pending =
      writeAtLoop beh cfg fuel
        { s with
          parts := (s.parts.set pn (some (freshPart cfg pn))).set pn
            (some ((freshPart cfg pn).copyIn
              ((buf.drop bo).take (min (po + pending) cfg.partSize - po)) po
              (min (po + pending) cfg.partSize)))
          trace := s.trace ++ [Event.poolGet] }
        buf (pn + 1) 0 (bo + (min (po + pending) cfg.partSize - po))
        (pending - (min (po + pending) cfg.partSize - po)) := by
  conv_lhs => rw [writeAtLoop]
  rw [if_neg hpending, hget, hpool]
  rw [if_pos (rfl : true = true)]
  dsimp only
  rw [if_pos (show (freshPart cfg pn).state.toNat <
    S3PartUploadState.full.toNat from Nat.zero_lt_one)]
  rw [hnotfull]
  simp


theorem writeAt_ok (beh : S3Behavior) (cfg : WConfig) (s : WState)
    (buf : List Nat) (off : Nat)
    (herr : s.err = none)
    (hmax : ¬(0 ≤ cfg.maxObjectSize ∧
      ((off + buf.length : Nat) : Int) > cfg.maxObjectSize)) :
    writeAt beh cfg s buf off =
      (match writeAtLoop beh cfg (buf.length + 1)
          (extendParts { s with infoSize := max s.infoSize (off + buf.length) }
            ((off + buf.length - 1) / cfg.partSize))
          buf (off / cfg.partSize) (off % cfg.partSize) 0 buf.length with
       | (s, some e) => (s, 0, some e)
       | (s, none) => (s, buf.length, none)) := by
  unfold writeAt
  rw [herr]
  dsimp only
  rw [if_neg hmax]

theorem writeAt_err (beh : S3Behavior) (cfg : WConfig) (s : WState)
    (buf : List Nat) (off : Nat) (e : WErr) (herr : s.err = some e) :
    writeAt beh cfg s buf off =
      (seterr (closePartsInStateAdding (s3AbortMultipartUpload s)).1 e,
       0, some e) := by
  unfold writeAt
  rw [herr]


theorem writeAt_small_single (P : Nat) (buf : List Nat)
    (h0 : 0 < buf.length) (hP : buf.length < P) :
    writeAt allOk { partSize := P } mkWriter buf 0 =
      ({ parts := [some { content := buf ++ List.replicate (P - buf.length) 0
                          partNumber := 1
                          o := { partSize := P, ranges := [(0, buf.length)] }
                          state := .adding }]
         infoSize := buf.length
         trace := [Event.poolGet] }, buf.length, none) := by
  obtain ⟨k, hk⟩ : ∃ k, buf.length = k + 1 := ⟨buf.length - 1, by omega⟩
  rw [writeAt_ok allOk { partSize := P } mkWriter buf 0 rfl
    (fun h => absurd h.1 (by decide : ¬ (0 : Int) ≤ -1))]
  rw [show (0 + buf.length - 1) / P = 0 from Nat.div_eq_of_lt (by omega)]
  rw [Nat.zero_div, Nat.zero_mod]
  rw [extendParts_grow _ _ (by simp [mkWriter])]
  rw [hk]
  dsimp only [mkWriter]
  simp only [List.nil_append, Nat.zero_add, Nat.sub_zero, Nat.zero_max,
    List.replicate_one, List.length_nil]
  have hmin : min (k + 1) P = k + 1 := by omega
  rw [writeAtLoop_alloc_copy_nofull allOk { partSize := P } (k + 1)
    { parts := [none], completedParts := [], multiPartUploadID := none
      err := none, infoSize := k + 1, phantom := true, trace := [] }
    buf 0 0 0 (k + 1) rfl rfl (by omega) ?hnf]
  case hnf =>
    simp [S3PartToUpload.copyIn, S3PartToUpload.isFull, freshPart,
      OffsetRanges.add, OffsetRanges.isFull, OffsetRanges.getMaxValidOffset,
      rangesAdd, hmin]
    omega
  simp only [Nat.zero_add, Nat.sub_zero]
  rw [hmin, Nat.sub_self, writeAtLoop_pending_zero]
  dsimp only
  rw [← hk]
  have hmin2 : min buf.length P = buf.length := by omega
  simp [freshPart, S3PartToUpload.copyIn, goCopySlice, OffsetRanges.add,
    rangesAdd, List.drop_zero, List.take_length, List.set_set,
    List.drop_replicate, hmin2]


theorem close_small_single (P : Nat) (buf : List Nat) (h0 : 0 < buf.length) :
    close allOk
      { parts := [some { content := buf ++ List.replicate (P - buf.length) 0
                         partNumber := 1
                         o := { partSize := P, ranges := [(0, buf.length)] }
                         state := .adding }]
        infoSize := buf.length
        trace := [Event.poolGet] } =
      ({ parts := [some { content := buf ++ List.replicate (P - buf.length) 0
                          partNumber := 1
                          o := { partSize := P, ranges := [(0, buf.length)] }
                          state := .sent }]
         infoSize := buf.length
         phantom := false
         trace := [Event.poolGet, Event.phantomRemove, Event.putObject buf,
                   Event.poolPut] }, none) := by
  have hne : ¬((buf.length : Int) = -1) := by omega
  have hcontent : (buf ++ List.replicate (P - buf.length) 0).take
      ((buf.length : Int)).toNat = buf := by
    rw [Int.toNat_ofNat, List.take_left]
  unfold close closeCore closeInner
  simp [S3PartToUpload.getContent, OffsetRanges.getMaxValidOffset,
    s3PutObject, allOk, hne, hcontent]


/-- C1 (amended): a single `WriteAt(buf, 0)` with `0 < len(buf) < P`
followed by `Close` reports full success, performs exactly one PutObject
call whose body is exactly `buf`, and performs zero multipart calls
(the trace is pool-get, phantom-remove, PutObject, pool-put). -/
theorem singlePart_put_fast_path (P : Nat) (buf : List Nat)
    (h0 : 0 < buf.length) (hP : buf.length < P) :
    (writeAt allOk { partSize := P } mkWriter buf 0).2 = (buf.length, none) ∧
    (close allOk (writeAt allOk { partSize := P } mkWriter buf 0).1).2 = none ∧
    (close allOk (writeAt allOk { partSize := P } mkWriter buf 0).1).1.trace =
      [Event.poolGet, Event.phantomRemove, Event.putObject buf,
       Event.poolPut] ∧
    countEvents Event.isPut
      (close allOk (writeAt allOk { partSize := P } mkWriter buf 0).1).1.trace = 1 ∧
    countEvents Event.isMultipart
      (close allOk (writeAt allOk { partSize := P } mkWriter buf 0).1).1.trace = 0 := by
  rw [writeAt_small_single P buf h0 hP]
  dsimp only
  rw [close_small_single P buf h0]
  dsimp only
  refine ⟨rfl, rfl, rfl, ?_, ?_⟩ <;>
    simp [countEvents, Event.isPut, Event.isMultipart]

/-- Witness for C1's amended statement at `P = 4`, `buf = [1,2,3]`. -/
theorem singlePart_put_fast_path_witness :
    ((0 : Nat) < 3 ∧ (3 : Nat) < 4) ∧
    ((writeAt allOk { partSize := 4 } mkWriter [1, 2, 3] 0).2 =
       ([1, 2, 3].length, none) ∧
     (close allOk (writeAt allOk { partSize := 4 } mkWriter [1, 2, 3] 0).1).2 =
       none ∧
     (close allOk
        (writeAt allOk { partSize := 4 } mkWriter [1, 2, 3] 0).1).1.trace =
       [Event.poolGet, Event.phantomRemove, Event.putObject [1, 2, 3],
        Event.poolPut] ∧
     countEvents Event.isPut
       (close allOk
         (writeAt allOk { partSize := 4 } mkWriter [1, 2, 3] 0).1).1.trace = 1 ∧
     countEvents Event.isMultipart
       (close allOk
         (writeAt allOk { partSize := 4 } mkWriter [1, 2, 3] 0).1).1.trace = 0) :=
  ⟨⟨by decide, by decide⟩,
   singlePart_put_fast_path 4 [1, 2, 3] (by decide) (by decide)⟩


theorem countEvents_append (p : Event → Bool) (t u : List Event) :
    countEvents p (t ++ u) = countEvents p t + countEvents p u := by
  simp [countEvents, List.filter_append]

theorem s3AbortMultipartUpload_spec (s : WState) :
    (s3AbortMultipartUpload s).multiPartUploadID = none ∧
    (s3AbortMultipartUpload s).err = s.err ∧
    (s3AbortMultipartUpload s).parts = s.parts ∧
    (s3AbortMultipartUpload s).phantom = s.phantom ∧
    (s3AbortMultipartUpload s).completedParts = s.completedParts ∧
    (s3AbortMultipartUpload s).infoSize = s.infoSize ∧
    (s3AbortMultipartUpload s).trace = s.trace ++
      (if s.multiPartUploadID = none then []
       else [Event.abortMultipartUpload]) := by
  unfold s3AbortMultipartUpload
  cases h : s.multiPartUploadID <;> simp [h]

theorem closePartsStep_spec (acc : WState × Nat) (j : Nat) :
    (closePartsStep acc j).1.multiPartUploadID = acc.1.multiPartUploadID ∧
    (closePartsStep acc j).1.err = acc.1.err ∧
    (closePartsStep acc j).1.phantom = acc.1.phantom ∧
    (closePartsStep acc j).1.completedParts = acc.1.completedParts ∧
    (closePartsStep acc j).1.infoSize = acc.1.infoSize ∧
    (closePartsStep acc j).1.parts.length = acc.1.parts.length ∧
    acc.2 ≤ (closePartsStep acc j).2 ∧
    countEvents Event.isAbort (closePartsStep acc j).1.trace =
      countEvents Event.isAbort acc.1.trace ∧
    countEvents Event.isPoolPut (closePartsStep acc j).1.trace =
      countEvents Event.isPoolPut acc.1.trace +
        ((closePartsStep acc j).2 - acc.2) ∧
    (∀ i, ((closePartsStep acc j).1.parts.get? i).map
        (Option.map S3PartToUpload.content) =
      (acc.1.parts.get? i).map (Option.map S3PartToUpload.content)) ∧
    (∀ i, i ≠ j → (closePartsStep acc j).1.parts.get? i = acc.1.parts.get? i) ∧
    ((∀ p, acc.1.parts.get? j = some (some p) → p.state ≠ .adding) →
      (closePartsStep acc j).1.parts.get? j = acc.1.parts.get? j) ∧
    (∀ p, acc.1.parts.get? j = some (some p) → p.state = .adding →
      (closePartsStep acc j).1.parts.get? j =
        some (some { p with state := .cancelled }) ∧
      acc.2 < (closePartsStep acc j).2) := by
  obtain ⟨s0, p0⟩ := acc
  unfold closePartsStep
  dsimp only
  split
  case h_1 part heq =>
    split
    case isTrue hadding =>
      have hlt : j < s0.parts.length := by
        rcases List.get?_eq_some.mp heq with ⟨h, _⟩
        exact h
      refine ⟨rfl, rfl, rfl, rfl, rfl, by simp, by omega,
        by simp [countEvents_append, countEvents, Event.isAbort],
        by simp [countEvents_append, countEvents, Event.isPoolPut],
        ?_, ?_, ?_, ?_⟩
      · intro i
        by_cases hij : i = j
        · subst hij
          rw [List.get?_eq_getElem?, List.get?_eq_getElem?,
            List.getElem?_set_eq_of_lt _ hlt,
            ← List.get?_eq_getElem?, heq]
          rfl
        · rw [List.get?_eq_getElem?, List.getElem?_set_ne (fun h => hij h.symm),
            ← List.get?_eq_getElem?]
      · intro i hij
        rw [List.get?_eq_getElem?, List.getElem?_set_ne (fun h => hij h.symm),
          ← List.get?_eq_getElem?]
      · intro hno
        exact absurd hadding (hno part heq)
      · intro p hp hpadding
        rw [heq] at hp
        cases hp
        refine ⟨?_, by omega⟩
        rw [List.get?_eq_getElem?, List.getElem?_set_eq_of_lt _ hlt]
    case isFalse hnadding =>
      refine ⟨rfl, rfl, rfl, rfl, rfl, rfl, Nat.le_refl _, rfl, by simp,
        fun i => rfl, fun i _ => rfl, fun _ => rfl, ?_⟩
      intro p hp hpadding
      rw [heq] at hp
      cases hp
      exact absurd hpadding hnadding
  case h_2 hnone =>
    refine ⟨rfl, rfl, rfl, rfl, rfl, rfl, Nat.le_refl _, rfl, by simp,
      fun i => rfl, fun i _ => rfl, fun _ => rfl, ?_⟩
    intro p hp hpadding
    exact absurd hp (hnone p)

/-- What one pass of the part-cancelling loop does, for an arbitrary
index list: scalar fields survive, the pending counter only grows and
counts exactly the appended pool-put events, part contents survive,
parts not in state Adding survive unchanged, processed Adding parts
become Cancelled, and a processed Adding part makes the counter grow. -/
theorem closePartsGo_spec (l : List Nat) (acc : WState × Nat) :
    (l.foldl closePartsStep acc).1.multiPartUploadID =
      acc.1.multiPartUploadID ∧
    (l.foldl closePartsStep acc).1.err = acc.1.err ∧
    (l.foldl closePartsStep acc).1.phantom = acc.1.phantom ∧
    (l.foldl closePartsStep acc).1.completedParts = acc.1.completedParts ∧
    (l.foldl closePartsStep acc).1.infoSize = acc.1.infoSize ∧
    (l.foldl closePartsStep acc).1.parts.length = acc.1.parts.length ∧
    acc.2 ≤ (l.foldl closePartsStep acc).2 ∧
    countEvents Event.isAbort (l.foldl closePartsStep acc).1.trace =
      countEvents Event.isAbort acc.1.trace ∧
    countEvents Event.isPoolPut (l.foldl closePartsStep acc).1.trace =
      countEvents Event.isPoolPut acc.1.trace +
        ((l.foldl closePartsStep acc).2 - acc.2) ∧
    (∀ i, ((l.foldl closePartsStep acc).1.parts.get? i).map
        (Option.map S3PartToUpload.content) =
      (acc.1.parts.get? i).map (Option.map S3PartToUpload.content)) ∧
    (∀ i, (∀ p, acc.1.parts.get? i = some (some p) → p.state ≠ .adding) →
      (l.foldl closePartsStep acc).1.parts.get? i = acc.1.parts.get? i) ∧
    (∀ i p, i ∈ l → acc.1.parts.get? i = some (some p) → p.state = .adding →
      (l.foldl closePartsStep acc).1.parts.get? i =
        some (some { p with state := .cancelled }) ∧
      acc.2 < (l.foldl closePartsStep acc).2) := by
  induction l generalizing acc with
  | nil =>
    refine ⟨rfl, rfl, rfl, rfl, rfl, rfl, Nat.le_refl _, rfl, by simp,
      fun i => rfl, fun i _ => rfl, fun i p hi => absurd hi (List.not_mem_nil i)⟩
  | cons j l ih =>
    rw [List.foldl_cons]
    obtain ⟨sID, sErr, sPh, sCp, sIs, sLen, sLe, sAb, sPp, sCont, sNe, sSkip,
      sCancel⟩ := closePartsStep_spec acc j
    obtain ⟨iID, iErr, iPh, iCp, iIs, iLen, iLe, iAb, iPp, iCont, iSkip,
      iCancel⟩ := ih (closePartsStep acc j)
    refine ⟨iID.trans sID, iErr.trans sErr, iPh.trans sPh, iCp.trans sCp,
      iIs.trans sIs, iLen.trans sLen, Nat.le_trans sLe iLe,
      iAb.trans sAb, by omega, fun i => (iCont i).trans (sCont i), ?_, ?_⟩
    · intro i hno
      have h1 : (closePartsStep acc j).1.parts.get? i = acc.1.parts.get? i := by
        by_cases hij : i = j
        · subst hij
          exact sSkip hno
        · exact sNe i hij
      have h2 := iSkip i (by rw [h1]; exact hno)
      rw [h2, h1]
    · intro i p hmem hget hadding
      rcases List.mem_cons.mp hmem with hij | hmem2
      · subst hij
        obtain ⟨hc, hlt⟩ := sCancel p hget hadding
        have h2 := iSkip i (by
          rw [hc]
          intro q hq
          cases hq
          simp)
        rw [h2, hc]
        exact ⟨rfl, by omega⟩
      · by_cases hij : i = j
        · subst hij
          obtain ⟨hc, hlt⟩ := sCancel p hget hadding
          have h2 := iSkip i (by
            rw [hc]
            intro q hq
            cases hq
            simp)
          rw [h2, hc]
          exact ⟨rfl, by omega⟩
        · have h1 := sNe i hij
          obtain ⟨hc, hlt⟩ := iCancel i p hmem2 (by rw [h1]; exact hget) hadding
          exact ⟨hc, by omega⟩


theorem closePartsInStateAdding_spec (s : WState) :
    (closePartsInStateAdding s).1.multiPartUploadID = s.multiPartUploadID ∧
    (closePartsInStateAdding s).1.err = s.err ∧
    (closePartsInStateAdding s).1.phantom = s.phantom ∧
    (closePartsInStateAdding s).1.parts.length = s.parts.length ∧
    countEvents Event.isAbort (closePartsInStateAdding s).1.trace =
      countEvents Event.isAbort s.trace ∧
    countEvents Event.isPoolPut (closePartsInStateAdding s).1.trace =
      countEvents Event.isPoolPut s.trace + (closePartsInStateAdding s).2 ∧
    (∀ i, ((closePartsInStateAdding s).1.parts.get? i).map
        (Option.map S3PartToUpload.content) =
      (s.parts.get? i).map (Option.map S3PartToUpload.content)) ∧
    (∀ i, (∀ p, s.parts.get? i = some (some p) → p.state ≠ .adding) →
      (closePartsInStateAdding s).1.parts.get? i = s.parts.get? i) ∧
    (∀ i p, i < s.parts.length → s.parts.get? i = some (some p) →
      p.state = .adding →
      (closePartsInStateAdding s).1.parts.get? i =
        some (some { p with state := .cancelled }) ∧
      0 < (closePartsInStateAdding s).2) := by
  obtain ⟨hID, hErr, hPh, _, _, hLen, _, hAb, hPp, hCont, hSkip, hCancel⟩ :=
    closePartsGo_spec (List.range s.parts.length).reverse (s, 0)
  unfold closePartsInStateAdding
  exact ⟨hID, hErr, hPh, hLen, hAb, by simpa using hPp, hCont, hSkip,
    fun i p hi hget hadding =>
      hCancel i p (by simp [List.mem_reverse, List.mem_range, hi]) hget hadding⟩

/-- C4 (amended): once the writer error is set, WriteAt copies no data
and returns `(0, err)` with the stored error unchanged, and at most one
AbortMultipartUpload API call is made: the call is issued now only when a
multipart upload is open, and the upload id is cleared so no later call
can issue another. -/
theorem writeAt_error_short_circuits (beh : S3Behavior) (cfg : WConfig)
    (s : WState) (buf : List Nat) (off : Nat) (e : WErr)
    (herr : s.err = some e) :
    (writeAt beh cfg s buf off).2 = (0, some e) ∧
    (writeAt beh cfg s buf off).1.err = some e ∧
    (∀ i, ((writeAt beh cfg s buf off).1.parts.get? i).map
        (Option.map S3PartToUpload.content) =
      (s.parts.get? i).map (Option.map S3PartToUpload.content)) ∧
    (writeAt beh cfg s buf off).1.multiPartUploadID = none ∧
    countEvents Event.isAbort (writeAt beh cfg s buf off).1.trace =
      countEvents Event.isAbort s.trace +
        (if s.multiPartUploadID = none then 0 else 1) := by
  rw [writeAt_err beh cfg s buf off e herr]
  obtain ⟨aID, aErr, aParts, aPh, aCp, aIs, aTrace⟩ :=
    s3AbortMultipartUpload_spec s
  obtain ⟨cID, cErr, cPh, cLen, cAb, cPp, cCont, cSkip, cCancel⟩ :=
    closePartsInStateAdding_spec (s3AbortMultipartUpload s)
  refine ⟨rfl, rfl, ?_, ?_, ?_⟩
  · intro i
    show ((closePartsInStateAdding (s3AbortMultipartUpload s)).1.parts.get? i).map
        (Option.map S3PartToUpload.content) = _
    rw [cCont i, aParts]
  · show (closePartsInStateAdding (s3AbortMultipartUpload s)).1.multiPartUploadID = none
    rw [cID, aID]
  · show countEvents Event.isAbort
      (closePartsInStateAdding (s3AbortMultipartUpload s)).1.trace = _
    rw [cAb, aTrace, countEvents_append]
    cases h : s.multiPartUploadID <;>
      simp [h, countEvents, Event.isAbort]


theorem s3UploadPart_fields (beh : S3Behavior) (s : WState)
    (part : S3PartToUpload) :
    (s3UploadPart beh s part).1.parts = s.parts ∧
    (s3UploadPart beh s part).1.multiPartUploadID = s.multiPartUploadID ∧
    (s3UploadPart beh s part).1.phantom = s.phantom ∧
    (s3UploadPart beh s part).1.err = s.err := by
  unfold s3UploadPart
  split
  · exact ⟨rfl, rfl, rfl, rfl⟩
  · dsimp only
    split
    · exact ⟨rfl, rfl, rfl, rfl⟩
    · exact ⟨rfl, rfl, rfl, rfl⟩

theorem workerUploadPart_fields (beh : S3Behavior) (s : WState) (idx : Nat) :
    (∀ j, j ≠ idx →
      (workerUploadPart beh s idx).parts.get? j = s.parts.get? j) ∧
    (workerUploadPart beh s idx).parts.length = s.parts.length ∧
    (workerUploadPart beh s idx).multiPartUploadID = s.multiPartUploadID ∧
    (workerUploadPart beh s idx).phantom = s.phantom := by
  unfold workerUploadPart
  split
  case h_1 part heq =>
    split
    · exact ⟨fun j _ => rfl, rfl, rfl, rfl⟩
    · dsimp only
      obtain ⟨hParts, hID, hPh, hErr⟩ := s3UploadPart_fields beh s part
      split
      · refine ⟨fun j hj => ?_, by simp [seterr, hParts], by simp [seterr, hID],
          by simp [seterr, hPh]⟩
        show ((s3UploadPart beh s part).1.parts.set idx _).get? j = _
        rw [List.get?_eq_getElem?, List.getElem?_set_ne (fun h => hj h.symm),
          ← List.get?_eq_getElem?, hParts]
      · refine ⟨fun j hj => ?_, by simp [hParts], by simp [hID], by simp [hPh]⟩
        show ((s3UploadPart beh s part).1.parts.set idx _).get? j = _
        rw [List.get?_eq_getElem?, List.getElem?_set_ne (fun h => hj h.symm),
          ← List.get?_eq_getElem?, hParts]
  case h_2 => exact ⟨fun j _ => rfl, rfl, rfl, rfl⟩

theorem enqueueUpload_spec (beh : S3Behavior) (s : WState) (idx : Nat)
    (hbeh : beh.createOk = true) :
    (enqueueUpload beh s idx).2 = none ∧
    (∀ j, j ≠ idx →
      (enqueueUpload beh s idx).1.parts.get? j = s.parts.get? j) ∧
    (enqueueUpload beh s idx).1.parts.length = s.parts.length ∧
    (enqueueUpload beh s idx).1.phantom = s.phantom ∧
    (s.multiPartUploadID = none →
      (∀ p, s.parts.get? idx = some (some p) → p.state = .adding) →
      s.parts.get? idx = some none ∨ s.parts.get? idx = none ∨
        (enqueueUpload beh s idx).1.multiPartUploadID ≠ none) ∧
    (∀ u, s.multiPartUploadID = some u →
      (enqueueUpload beh s idx).1.multiPartUploadID = some u) := by
  unfold enqueueUpload
  split
  case h_1 part heq =>
    split
    case isTrue hst =>
      cases hID : s.multiPartUploadID with
      | none =>
        rw [s3CreateMultipartUpload, hbeh]
        rw [if_pos (rfl : true = true)]
        dsimp only
        obtain ⟨wNe, wLen, wID, wPh⟩ := workerUploadPart_fields beh
          { s with multiPartUploadID := some 1
                   trace := s.trace ++ [Event.createMultipartUpload]
                   parts := s.parts.set idx (some { part with state := .full }) }
          idx
        refine ⟨rfl, fun j hj => ?_, by simpa using wLen, by simpa using wPh,
          ?_, ?_⟩
        · rw [wNe j hj]
          show (s.parts.set idx _).get? j = _
          rw [List.get?_eq_getElem?, List.getElem?_set_ne (fun h => hj h.symm),
            ← List.get?_eq_getElem?]
        · intro _ _
          right; right
          rw [wID]
          simp
        · intro u hu
          exact Option.noConfusion hu
      | some u =>
        dsimp only
        obtain ⟨wNe, wLen, wID, wPh⟩ := workerUploadPart_fields beh
          { s with parts := s.parts.set idx (some { part with state := .full }) }
          idx
        refine ⟨rfl, fun j hj => ?_, by simpa using wLen, by simpa using wPh,
          ?_, ?_⟩
        · rw [wNe j hj]
          show (s.parts.set idx _).get? j = _
          rw [List.get?_eq_getElem?, List.getElem?_set_ne (fun h => hj h.symm),
            ← List.get?_eq_getElem?]
        · intro h0 _
          exact Option.noConfusion h0
        · intro v hv
          rw [wID]
          show s.multiPartUploadID = some v
          rw [hID]
          exact hv
    case isFalse hst =>
      refine ⟨rfl, fun j _ => rfl, rfl, rfl, ?_, fun u hu => hu⟩
      intro _ hall
      have := hall part heq
      rw [this] at hst
      exact absurd Nat.zero_lt_one hst
  case h_2 hno =>
    refine ⟨rfl, fun j _ => rfl, rfl, rfl, ?_, fun u hu => hu⟩
    intro _ _
    cases hg : s.parts.get? idx with
    | none => right; left; rfl
    | some o =>
      cases o with
      | none => left; rfl
      | some q => exact absurd hg (by intro h; exact hno q h)


/-- C3 (amended): when some allocated part other than the trailing one is
still in state Adding at Close, Close fails with the pending-parts error,
AbortMultipartUpload is issued on the open multipart upload, every
non-trailing Adding part transitions to Cancelled, and one pool-put is
recorded per cancelled part. -/
theorem close_fails_on_adding_part (beh : S3Behavior) (s : WState)
    (hbeh : beh.createOk = true)
    (herr : s.err = none)
    (hlen2 : 2 ≤ s.parts.length)
    (htrail : s.multiPartUploadID ≠ none ∨
      (∃ pt, s.parts.get? (s.parts.length - 1) = some (some pt) ∧
        pt.state = .adding))
    (hex : ∃ i p, i + 1 < s.parts.length ∧ s.parts.get? i = some (some p) ∧
      p.state = .adding) :
    (∃ n, 0 < n ∧ (close beh s).2 = some (.pendingParts n) ∧
      countEvents Event.isPoolPut s.trace + n ≤
        countEvents Event.isPoolPut (close beh s).1.trace) ∧
    Event.abortMultipartUpload ∈ (close beh s).1.trace ∧
    (∀ j q, j + 1 < s.parts.length → s.parts.get? j = some (some q) →
      q.state = .adding →
      (close beh s).1.parts.get? j =
        some (some { q with state := .cancelled })) := by
  obtain ⟨i, p, hi, hget, hadding⟩ := hex
  unfold close
  set s0 : WState :=
    { s with phantom := false, trace := s.trace ++ [Event.phantomRemove] }
    with hs0
  have hs0parts : s0.parts = s.parts := rfl
  have hs0len : s0.parts.length = s.parts.length := rfl
  have hs0ID : s0.multiPartUploadID = s.multiPartUploadID := rfl
  -- the trailing-part index
  set idx : Nat := s0.parts.length - 1 with hidx
  have hine : i ≠ idx := by omega
  -- run the trailing enqueue
  obtain ⟨eNone, eNe, eLen, ePh, eIDnone, eIDsome⟩ :=
    enqueueUpload_spec beh s0 idx hbeh
  rcases hE : enqueueUpload beh s0 idx with ⟨s1, e1⟩
  rw [hE] at eNone eNe eLen ePh eIDnone eIDsome
  cases eNone
  have hs1get : s1.parts.get? i = some (some p) := by
    rw [eNe i hine, hs0parts, hget]
  have hs1ID : s1.multiPartUploadID ≠ none := by
    rcases htrail with h | ⟨pt, hpt, hptadd⟩
    · cases hu : s.multiPartUploadID with
      | none => exact absurd hu h
      | some u => rw [eIDsome u (by rw [hs0ID, hu])]; simp
    · cases hu : s.multiPartUploadID with
      | none =>
        rcases eIDnone (by rw [hs0ID, hu])
          (fun q hq => by
            rw [hs0parts] at hq
            rw [hq] at hpt
            cases hpt
            exact hptadd) with h1 | h1 | h1
        · rw [hs0parts] at h1
          rw [h1] at hpt
          simp at hpt
        · rw [hs0parts] at h1
          rw [h1] at hpt
          simp at hpt
        · exact h1
      | some u => rw [eIDsome u (by rw [hs0ID, hu])]; simp
  -- trace of the enqueue only grows
  have hs1trace : ∃ t, s1.trace = s0.trace ++ t := by
    have h := traceExt_enqueueUpload beh s0 idx
    rw [hE] at h
    exact h.2
  -- first cancellation sweep
  obtain ⟨cID, cErr, cPh, cLen, cAb, cPp, cCont, cSkip, cCancel⟩ :=
    closePartsInStateAdding_spec s1
  rcases hC : closePartsInStateAdding s1 with ⟨s2, n⟩
  rw [hC] at cID cErr cPh cLen cAb cPp cCont cSkip cCancel
  obtain ⟨hCanc_i, hn⟩ := cCancel i p (by rw [eLen, hs0len]; omega) hs1get hadding
  -- reduce closeCore
  have hInner : closeInner beh s0 = (s2, some (.pendingParts n)) := by
    unfold closeInner
    rw [show s0.err = none from herr]
    dsimp only
    rw [if_neg (fun h => absurd h.1 (by omega : ¬ s0.parts.length = 1))]
    rw [hE]
    dsimp only
    rw [hC]
    dsimp only
    rw [if_pos hn]
  have hCore : closeCore beh s0 =
      ((closePartsInStateAdding (s3AbortMultipartUpload s2)).1,
       some (.pendingParts n)) := by
    unfold closeCore
    rw [hInner]
  rw [hCore]
  dsimp only
  -- the abort step
  obtain ⟨aID, aErr, aParts, aPh, aCp, aIs, aTrace⟩ :=
    s3AbortMultipartUpload_spec s2
  have habortTrace : (s3AbortMultipartUpload s2).trace =
      s2.trace ++ [Event.abortMultipartUpload] := by
    rw [aTrace, if_neg (by rw [cID]; exact hs1ID)]
  -- second cancellation sweep
  obtain ⟨dID, dErr, dPh, dLen, dAb, dPp, dCont, dSkip, dCancel⟩ :=
    closePartsInStateAdding_spec (s3AbortMultipartUpload s2)
  have hfinTrace : ∃ t,
      (closePartsInStateAdding (s3AbortMultipartUpload s2)).1.trace =
        (s3AbortMultipartUpload s2).trace ++ t :=
    (traceExt_closePartsInStateAdding (s3AbortMultipartUpload s2)).2
  refine ⟨⟨n, hn, rfl, ?_⟩, ?_, ?_⟩
  · obtain ⟨t1, ht1⟩ := hs1trace
    obtain ⟨t3, ht3⟩ := hfinTrace
    have h1 : countEvents Event.isPoolPut s2.trace =
        countEvents Event.isPoolPut s1.trace + n := cPp
    have h2 : countEvents Event.isPoolPut (s3AbortMultipartUpload s2).trace =
        countEvents Event.isPoolPut s2.trace := by
      rw [habortTrace, countEvents_append]
      simp [countEvents, Event.isPoolPut]
    have h3 : countEvents Event.isPoolPut s1.trace ≥
        countEvents Event.isPoolPut s.trace := by
      rw [ht1, countEvents_append]
      have : countEvents Event.isPoolPut s0.trace =
          countEvents Event.isPoolPut s.trace := by
        show countEvents Event.isPoolPut (s.trace ++ [Event.phantomRemove]) = _
        rw [countEvents_append]
        simp [countEvents, Event.isPoolPut]
      omega
    have h4 : countEvents Event.isPoolPut
        (closePartsInStateAdding (s3AbortMultipartUpload s2)).1.trace ≥
        countEvents Event.isPoolPut (s3AbortMultipartUpload s2).trace := by
      rw [ht3, countEvents_append]
      omega
    omega
  · obtain ⟨t3, ht3⟩ := hfinTrace
    rw [ht3, habortTrace]
    simp
  · intro j q hj hjget hjadd
    have hjne : j ≠ idx := by omega
    have hs1j : s1.parts.get? j = some (some q) := by
      rw [eNe j hjne, hs0parts, hjget]
    obtain ⟨hjc, _⟩ := cCancel j q (by rw [eLen, hs0len]; omega) hs1j hjadd
    have hskip := dSkip j (by
      rw [aParts, hjc]
      intro r hr
      cases hr
      simp)
    rw [hskip, aParts, hjc]


/-- Witness for C3's amended statement at a concrete input. -/
theorem close_fails_on_adding_part_witness :
    (allOk.createOk = true ∧ s3w.err = none ∧ 2 ≤ s3w.parts.length ∧
     s3w.multiPartUploadID ≠ none ∧
     1 + 1 < s3w.parts.length ∧ s3w.parts.get? 1 = some (some p3w) ∧
     p3w.state = .adding) ∧
    ((∃ n, 0 < n ∧ (close allOk s3w).2 = some (.pendingParts n) ∧
       countEvents Event.isPoolPut s3w.trace + n ≤
         countEvents Event.isPoolPut (close allOk s3w).1.trace) ∧
     Event.abortMultipartUpload ∈ (close allOk s3w).1.trace ∧
     (∀ j q, j + 1 < s3w.parts.length → s3w.parts.get? j = some (some q) →
       q.state = .adding →
       (close allOk s3w).1.parts.get? j =
         some (some { q with state := .cancelled }))) :=
  ⟨⟨rfl, by decide, by decide, by decide, by decide, by decide, rfl⟩,
   close_fails_on_adding_part allOk s3w rfl (by decide) (by decide)
     (Or.inl (by decide))
     ⟨1, p3w, by decide, by decide, rfl⟩⟩


/-- Witness for C4's amended statement at a concrete input. -/
theorem writeAt_error_short_circuits_witness :
    sErr4.err = some WErr.tooLarge ∧
    ((writeAt allOk cfg4 sErr4 [7] 0).2 = (0, some WErr.tooLarge) ∧
     (writeAt allOk cfg4 sErr4 [7] 0).1.err = some WErr.tooLarge ∧
     (∀ i, ((writeAt allOk cfg4 sErr4 [7] 0).1.parts.get? i).map
         (Option.map S3PartToUpload.content) =
       (sErr4.parts.get? i).map (Option.map S3PartToUpload.content)) ∧
     (writeAt allOk cfg4 sErr4 [7] 0).1.multiPartUploadID = none ∧
     countEvents Event.isAbort (writeAt allOk cfg4 sErr4 [7] 0).1.trace =
       countEvents Event.isAbort sErr4.trace +
         (if sErr4.multiPartUploadID = none then 0 else 1)) :=
  ⟨rfl,
   writeAt_error_short_circuits allOk cfg4 sErr4 [7] 0 WErr.tooLarge rfl⟩


theorem workerUploadPart_at_idx (beh : S3Behavior) (s : WState) (idx : Nat)
    (q : S3PartToUpload) (hq : s.parts.get? idx = some (some q)) :
    ∃ st, (workerUploadPart beh s idx).parts.get? idx =
      some (some { q with state := st }) := by
  have hlt : idx < s.parts.length := by
    rcases List.get?_eq_some.mp hq with ⟨h, _⟩
    exact h
  unfold workerUploadPart
  rw [hq]
  dsimp only
  split
  · exact ⟨q.state, hq⟩
  · obtain ⟨hParts, hID, hPh, hErr⟩ := s3UploadPart_fields beh s q
    split
    · refine ⟨.errorSending, ?_⟩
      show ((s3UploadPart beh s q).1.parts.set idx _).get? idx = _
      rw [List.get?_eq_getElem?, hParts, List.getElem?_set_eq_of_lt _ hlt]
    · refine ⟨.sent, ?_⟩
      show ((s3UploadPart beh s q).1.parts.set idx _).get? idx = _
      rw [List.get?_eq_getElem?, hParts, List.getElem?_set_eq_of_lt _ hlt]

theorem enqueueUpload_at_idx (beh : S3Behavior) (s : WState) (idx : Nat)
    (q : S3PartToUpload) (hbeh : beh.createOk = true)
    (hq : s.parts.get? idx = some (some q)) :
    ∃ st, (enqueueUpload beh s idx).1.parts.get? idx =
      some (some { q with state := st }) := by
  have hlt : idx < s.parts.length := by
    rcases List.get?_eq_some.mp hq with ⟨h, _⟩
    exact h
  unfold enqueueUpload
  rw [hq]
  dsimp only
  split
  case isTrue hst =>
    cases hID : s.multiPartUploadID with
    | none =>
      rw [s3CreateMultipartUpload, hbeh]
      rw [if_pos (rfl : true = true)]
      dsimp only
      obtain ⟨st, hw⟩ := workerUploadPart_at_idx beh
        { s with multiPartUploadID := some 1
                 trace := s.trace ++ [Event.createMultipartUpload]
                 parts := s.parts.set idx (some { q with state := .full }) }
        idx { q with state := .full }
        (by
          show (s.parts.set idx _).get? idx = _
          rw [List.get?_eq_getElem?, List.getElem?_set_eq_of_lt _ hlt])
      exact ⟨st, hw⟩
    | some u =>
      dsimp only
      obtain ⟨st, hw⟩ := workerUploadPart_at_idx beh
        { s with parts := s.parts.set idx (some { q with state := .full }) }
        idx { q with state := .full }
        (by
          show (s.parts.set idx _).get? idx = _
          rw [List.get?_eq_getElem?, List.getElem?_set_eq_of_lt _ hlt])
      exact ⟨st, hw⟩
  case isFalse hst => exact ⟨q.state, hq⟩


theorem goCopySlice_length (dst src : List Nat) (start stop : Nat)
    (h1 : start ≤ stop) (h2 : stop ≤ dst.length)
    (h3 : src.length = stop - start) :
    (goCopySlice dst start stop src).length = dst.length := by
  unfold goCopySlice
  dsimp only
  rw [show min stop dst.length = stop by omega]
  simp [h3]
  omega

theorem goCopySlice_get_in (dst src : List Nat) (start stop m : Nat)
    (h1 : start ≤ stop) (h2 : stop ≤ dst.length)
    (h3 : src.length = stop - start) (hm : m < stop - start) :
    (goCopySlice dst start stop src).get? (start + m) = src.get? m := by
  unfold goCopySlice
  dsimp only
  rw [show min stop dst.length = stop by omega]
  rw [show min (stop - start) src.length = src.length by omega]
  rw [List.take_length]
  simp only [List.get?_eq_getElem?]
  rw [List.getElem?_append_left (by simp [List.length_take]; omega)]
  rw [List.getElem?_append_right (by simp [List.length_take])]
  congr 1
  simp [List.length_take]
  omega

theorem mul_add_div_helper (pn P x : Nat) (hx : x < P) :
    (pn * P + x) / P = pn := by
  rw [show pn * P + x = x + pn * P by omega, Nat.add_mul_div_right _ _ (by omega),
    Nat.div_eq_of_lt hx]
  omega

theorem mul_add_mod_helper (pn P x : Nat) (hx : x < P) :
    (pn * P + x) % P = x := by
  rw [show pn * P + x = x + pn * P by omega, Nat.add_mul_mod_self_right,
    Nat.mod_eq_of_lt hx]


theorem writeAtLoop_alloc_reduce (beh : S3Behavior) (cfg : WConfig)
    (fuel : Nat) (s : WState) (buf : List Nat) (pn po bo pending : Nat)
    (hga : s.parts.get? pn = some none) (hlt : pn < s.parts.length)
    (hpool : beh.poolGetOk = true) (hpending : pending ≠ 0) :
    writeAtLoop beh cfg (fuel + 1) s buf pn po bo pending =
      writeAtLoop beh cfg (fuel + 1)
        { s with parts := s.parts.set pn (some (freshPart cfg pn))
                 trace := s.trace ++ [Event.poolGet] }
        buf pn po bo pending := by
  conv_lhs => rw [writeAtLoop]
  conv_rhs => rw [writeAtLoop]
  rw [if_neg hpending, if_neg hpending, hga, hpool]
  rw [if_pos (rfl : true = true)]
  rw [show ({ s with parts := s.parts.set pn (some (freshPart cfg pn))
                     trace := s.trace ++ [Event.poolGet] } : WState).parts.get? pn
      = some (some (freshPart cfg pn)) from by
    show (s.parts.set pn _).get? pn = _
    rw [List.get?_eq_getElem?, List.getElem?_set_eq_of_lt _ hlt]]


theorem writeAtLoop_copy_reduce (beh : S3Behavior) (cfg : WConfig)
    (fuel : Nat) (s : WState) (buf : List Nat) (pn po bo pending : Nat)
    (q : S3PartToUpload)
    (hga : s.parts.get? pn = some (some q))
    (hadding : q.state.toNat < S3PartUploadState.full.toNat)
    (hpending : pending ≠ 0) :
    writeAtLoop beh cfg (fuel + 1) s buf pn po bo pending =
      (let pof := min (po + pending) cfg.partSize
       let pc := pof - po
       let q' := q.copyIn ((buf.drop bo).take pc) po pof
       let s2 : WState := { s with parts := s.parts.set pn (some q') }
       if q'.isFull then
         match enqueueUpload beh s2 pn with
         | (s', some e) =>
           (seterr (closePartsInStateAdding (s3AbortMultipartUpload s')).1 e,
            some e)
         | (s', none) =>
           writeAtLoop beh cfg fuel s' buf (pn + 1) 0 (bo + pc) (pending - pc)
       else
         writeAtLoop beh cfg fuel s2 buf (pn + 1) 0 (bo + pc) (pending - pc)) := by
  conv_lhs => rw [writeAtLoop]
  rw [if_neg hpending, hga]
  dsimp only
  rw [if_pos hadding]


theorem writeAtLoop_step_allocated (beh : S3Behavior) (cfg : WConfig)
    (hpool : beh.poolGetOk = true) (hcreate : beh.createOk = true)
    (fuel : Nat)
    (ih : ∀ s buf pn po bo pending, pending < fuel →
      LoopHyp cfg s buf pn po bo pending →
      LoopConcl beh cfg fuel s buf pn po bo pending)
    (s : WState) (buf : List Nat) (pn po bo pending : Nat)
    (q : S3PartToUpload)
    (hpending : pending ≠ 0) (hpf : pending < fuel + 1)
    (hhyp : LoopHyp cfg s buf pn po bo pending)
    (hga : s.parts.get? pn = some (some q)) :
    LoopConcl beh cfg (fuel + 1) s buf pn po bo pending := by
  obtain ⟨hpo, hbo, hlen, hparts⟩ := hhyp
  have hP : 0 < cfg.partSize := by omega
  obtain ⟨hqadd, hqnum, hqlen⟩ := hparts pn q (Nat.le_refl pn) hga
  have hpnlt : pn < s.parts.length := by
    rcases List.get?_eq_some.mp hga with ⟨h, _⟩
    exact h
  have hsucc : (pn + 1) * cfg.partSize = pn * cfg.partSize + cfg.partSize :=
    Nat.succ_mul pn cfg.partSize
  have hlen1 : pn * cfg.partSize + cfg.partSize ≤
      s.parts.length * cfg.partSize := by
    have h := Nat.mul_le_mul_right cfg.partSize
      (show pn + 1 ≤ s.parts.length by omega)
    rw [hsucc] at h
    exact h
  set pof := min (po + pending) cfg.partSize with hpofdef
  set pc := pof - po with hpcdef
  have hpof1 : po < pof := by omega
  have hpof2 : pof ≤ cfg.partSize := by omega
  have hpc1 : 1 ≤ pc := by omega
  have hpc2 : pc ≤ pending := by omega
  have hpccases : pc = pending ∨ pof = cfg.partSize := by omega
  set chunk := (buf.drop bo).take pc with hchunkdef
  have hchunklen : chunk.length = pc := by
    rw [hchunkdef, List.length_take, List.length_drop]
    omega
  set q' := q.copyIn chunk po pof with hqdef
  have hq'num : q'.partNumber = q.partNumber := rfl
  have hq'len : q'.content.length = cfg.partSize := by
    rw [hqdef]
    show (goCopySlice q.content po pof chunk).length = _
    rw [goCopySlice_length q.content chunk po pof (by omega)
      (by omega) (by omega), hqlen]
  have hq'get : ∀ m, m < pc →
      q'.content.get? (po + m) = buf.get? (bo + m) := by
    intro m hm
    rw [hqdef]
    show (goCopySlice q.content po pof chunk).get? (po + m) = _
    rw [goCopySlice_get_in q.content chunk po pof m (by omega)
      (by omega) (by omega) (by omega)]
    rw [hchunkdef, List.get?_take hm, List.get?_drop]
  have hadding2 : q.state.toNat < S3PartUploadState.full.toNat := by
    rw [hqadd]
    exact Nat.zero_lt_one
  rw [LoopConcl, writeAtLoop_copy_reduce beh cfg fuel s buf pn po bo pending q
    hga hadding2 hpending]
  dsimp only
  set s2 : WState := { s with parts := s.parts.set pn (some q') } with hs2def
  have hs2len : s2.parts.length = s.parts.length := by
    rw [hs2def]
    show (s.parts.set pn (some q')).length = _
    exact List.length_set s.parts pn _
  have hs2ne : ∀ j, j ≠ pn → s2.parts.get? j = s.parts.get? j := by
    intro j hj
    show (s.parts.set pn (some q')).get? j = _
    rw [List.get?_eq_getElem?, List.getElem?_set_ne (fun h => hj h.symm),
      ← List.get?_eq_getElem?]
  have hs2pn : s2.parts.get? pn = some (some q') := by
    show (s.parts.set pn (some q')).get? pn = _
    rw [List.get?_eq_getElem?, List.getElem?_set_eq_of_lt _ hpnlt]
  -- the rest of the buffer is handled by the recursive call from state sN
  -- (either s2 or the post-enqueue state); this common tail is factored
  -- below as hfinish.
  have hfinish : ∀ (sN : WState),
      sN.parts.length = s.parts.length →
      (∀ j, j ≠ pn → sN.parts.get? j = s.parts.get? j) →
      (∃ st, sN.parts.get? pn = some (some { q' with state := st })) →
      (writeAtLoop beh cfg fuel sN buf (pn + 1) 0 (bo + pc)
        (pending - pc)).2 = none ∧
      (writeAtLoop beh cfg fuel sN buf (pn + 1) 0 (bo + pc)
        (pending - pc)).1.parts.length = s.parts.length ∧
      (∀ j, j < pn →
        (writeAtLoop beh cfg fuel sN buf (pn + 1) 0 (bo + pc)
          (pending - pc)).1.parts.get? j = s.parts.get? j) ∧
      (∀ k, bo ≤ k → k < buf.length →
        ∃ r, (writeAtLoop beh cfg fuel sN buf (pn + 1) 0 (bo + pc)
            (pending - pc)).1.parts.get?
            ((pn * cfg.partSize + po + (k - bo)) / cfg.partSize) =
            some (some r) ∧
          r.partNumber =
            (pn * cfg.partSize + po + (k - bo)) / cfg.partSize + 1 ∧
          r.content.get? ((pn * cfg.partSize + po + (k - bo)) % cfg.partSize) =
            buf.get? k) := by
    intro sN hNlen hNne hNpn
    obtain ⟨st, hNpn⟩ := hNpn
    have hNhyp : LoopHyp cfg sN buf (pn + 1) 0 (bo + pc) (pending - pc) := by
      refine ⟨hP, by omega, ?_, ?_⟩
      · rw [hNlen, hsucc]
        rcases hpccases with h | h
        · have : pending - pc = 0 := by omega
          rw [this]
          omega
        · omega
      · intro j r hj hr
        have hne : j ≠ pn := by omega
        rw [hNne j hne] at hr
        exact hparts j r (by omega) hr
    obtain ⟨i1, i2, i3, i4⟩ := ih sN buf (pn + 1) 0 (bo + pc)
      (pending - pc) (by omega) hNhyp
    refine ⟨i1, i2.trans hNlen, ?_, ?_⟩
    · intro j hj
      rw [i3 j (by omega), hNne j (by omega)]
    · intro k hk1 hk2
      by_cases hkc : k < bo + pc
      · -- byte handled in this iteration, at part index pn
        have hm : k - bo < pc := by omega
        have hx : po + (k - bo) < cfg.partSize := by omega
        have hdiv : (pn * cfg.partSize + po + (k - bo)) / cfg.partSize = pn := by
          rw [Nat.add_assoc]
          exact mul_add_div_helper pn cfg.partSize (po + (k - bo)) hx
        have hmod : (pn * cfg.partSize + po + (k - bo)) % cfg.partSize =
            po + (k - bo) := by
          rw [Nat.add_assoc]
          exact mul_add_mod_helper pn cfg.partSize (po + (k - bo)) hx
        refine ⟨{ q' with state := st }, ?_, ?_, ?_⟩
        · rw [hdiv, i3 pn (by omega), hNpn]
        · show q'.partNumber = _
          rw [hq'num, hqnum, hdiv]
        · show q'.content.get? _ = _
          rw [hmod, hq'get (k - bo) hm]
          congr 1
          omega
      · -- byte handled by the recursive call
        have hcase : pof = cfg.partSize := by
          rcases hpccases with h | h
          · omega
          · exact h
        have harith : (pn + 1) * cfg.partSize + 0 + (k - (bo + pc)) =
            pn * cfg.partSize + po + (k - bo) := by
          rw [hsucc]
          omega
        obtain ⟨r, hr1, hr2, hr3⟩ := i4 k (by omega) hk2
        rw [harith] at hr1 hr2 hr3
        exact ⟨r, hr1, hr2, hr3⟩
  split
  case isTrue hfull =>
    obtain ⟨eNone, eNe, eLen, ePh, _, _⟩ := enqueueUpload_spec beh s2 pn hcreate
    obtain ⟨st, hst⟩ := enqueueUpload_at_idx beh s2 pn q' hcreate hs2pn
    rcases hE : enqueueUpload beh s2 pn with ⟨s3, e3⟩
    rw [hE] at eNone eNe eLen ePh hst
    cases eNone
    exact hfinish s3 (eLen.trans hs2len)
      (fun j hj => (eNe j hj).trans (hs2ne j hj)) ⟨st, hst⟩
  case isFalse hfull =>
    exact hfinish s2 hs2len hs2ne ⟨q'.state, by
      rw [hs2pn]⟩


theorem writeAtLoop_invariant (beh : S3Behavior) (cfg : WConfig)
    (hpool : beh.poolGetOk = true) (hcreate : beh.createOk = true) :
    ∀ fuel s buf pn po bo pending, pending < fuel →
      LoopHyp cfg s buf pn po bo pending →
      LoopConcl beh cfg fuel s buf pn po bo pending := by
  intro fuel
  induction fuel with
  | zero =>
    intro s buf pn po bo pending hpf _
    exact absurd hpf (Nat.not_lt_zero _)
  | succ n ih =>
    intro s buf pn po bo pending hpf hhyp
    by_cases hpending : pending = 0
    · subst hpending
      obtain ⟨hpo, hbo, hlen, hparts⟩ := hhyp
      rw [LoopConcl, writeAtLoop_pending_zero]
      exact ⟨rfl, rfl, fun j _ => rfl, fun k hk1 hk2 => absurd hk2 (by omega)⟩
    · have hP : 0 < cfg.partSize := by
        obtain ⟨hpo, _, _, _⟩ := hhyp
        omega
      have hpnlt : pn < s.parts.length := by
        obtain ⟨hpo, hbo, hlen, _⟩ := hhyp
        by_contra hc
        have hm : s.parts.length * cfg.partSize ≤ pn * cfg.partSize :=
          Nat.mul_le_mul_right _ (by omega)
        omega
      rcases hget : s.parts.get? pn with _ | qo
      · exact absurd (List.get?_eq_none.mp hget) (by omega)
      rcases qo with _ | q
      · -- nil slot: the pool allocation succeeds and leaves a fresh
        -- Adding part at index pn; the allocated-slot step lemma applies.
        have hfresh : ∀ x : S3PartToUpload, x = freshPart cfg pn →
            x.state = .adding ∧ x.partNumber = pn + 1 ∧
            x.content.length = cfg.partSize := by
          intro x hx
          subst hx
          exact ⟨rfl, rfl, List.length_replicate _ _⟩
        obtain ⟨hpo, hbo, hlen, hparts⟩ := hhyp
        set sA : WState :=
          { s with parts := s.parts.set pn (some (freshPart cfg pn))
                   trace := s.trace ++ [Event.poolGet] } with hsAdef
        have hAlen : sA.parts.length = s.parts.length := by
          show (s.parts.set pn _).length = _
          exact List.length_set s.parts pn _
        have hAne : ∀ j, j ≠ pn → sA.parts.get? j = s.parts.get? j := by
          intro j hj
          show (s.parts.set pn _).get? j = _
          rw [List.get?_eq_getElem?, List.getElem?_set_ne (fun h => hj h.symm),
            ← List.get?_eq_getElem?]
        have hApn : sA.parts.get? pn = some (some (freshPart cfg pn)) := by
          show (s.parts.set pn _).get? pn = _
          rw [List.get?_eq_getElem?, List.getElem?_set_eq_of_lt _ hpnlt]
        have hAhyp : LoopHyp cfg sA buf pn po bo pending := by
          refine ⟨hpo, hbo, by rw [hAlen]; exact hlen, ?_⟩
          intro j r hj hr
          by_cases hjpn : j = pn
          · subst hjpn
            rw [hApn] at hr
            cases hr
            exact hfresh _ rfl
          · rw [hAne j hjpn] at hr
            exact hparts j r hj hr
        have hA := writeAtLoop_step_allocated beh cfg hpool hcreate n ih
          sA buf pn po bo pending (freshPart cfg pn) hpending hpf hAhyp hApn
        obtain ⟨a1, a2, a3, a4⟩ := hA
        rw [LoopConcl,
          writeAtLoop_alloc_reduce beh cfg n s buf pn po bo pending hget
            hpnlt hpool hpending]
        refine ⟨a1, a2.trans hAlen, ?_, a4⟩
        intro j hj
        rw [a3 j hj, hAne j (by omega)]
      · exact writeAtLoop_step_allocated beh cfg hpool hcreate n ih
          s buf pn po bo pending q hpending hpf hhyp hget


theorem extendParts_length (s : WState) (pnf : Nat) :
    pnf < (extendParts s pnf).parts.length := by
  unfold extendParts
  split
  case isTrue h =>
    show pnf < (s.parts ++ _).length
    rw [List.length_append, List.length_replicate]
    omega
  case isFalse h => omega

theorem extendParts_get_some (s : WState) (pnf j : Nat) (q : S3PartToUpload)
    (h : (extendParts s pnf).parts.get? j = some (some q)) :
    s.parts.get? j = some (some q) := by
  unfold extendParts at h
  split at h
  case isTrue hle =>
    have h2 : (s.parts ++
        List.replicate (pnf + 1 - s.parts.length) none).get? j =
        some (some q) := h
    by_cases hj : j < s.parts.length
    · rw [List.get?_eq_getElem?, List.getElem?_append_left hj,
        ← List.get?_eq_getElem?] at h2
      exact h2
    · rw [List.get?_eq_getElem?, List.getElem?_append_right (by omega),
        List.getElem?_replicate] at h2
      split at h2
      · exact absurd h2 (by simp)
      · exact absurd h2 (by simp)
  case isFalse => exact h

/-- C8: every byte of `buf` at absolute offset `o = off + k` is stored by
`WriteAt` in the part at index `o / partSize` — which carries part number
`(o / partSize) + 1` — at intra-part offset `o % partSize`, the call
reporting `(len(buf), nil)`; the part vector is grown to cover the write
and parts absent at their first touch are allocated from the pool inside
the loop. -/
theorem writeAt_byte_addressing (beh : S3Behavior) (cfg : WConfig)
    (s : WState) (buf : List Nat) (off : Nat)
    (hpool : beh.poolGetOk = true) (hcreate : beh.createOk = true)
    (hP : 0 < cfg.partSize) (herr : s.err = none)
    (hmax : ¬(0 ≤ cfg.maxObjectSize ∧
      ((off + buf.length : Nat) : Int) > cfg.maxObjectSize))
    (h0 : 0 < buf.length)
    (hparts : ∀ j q, off / cfg.partSize ≤ j →
      s.parts.get? j = some (some q) →
      q.state = .adding ∧ q.partNumber = j + 1 ∧
      q.content.length = cfg.partSize) :
    (writeAt beh cfg s buf off).2.2 = none ∧
    (writeAt beh cfg s buf off).2.1 = buf.length ∧
    ∀ k, k < buf.length →
      ∃ q, (writeAt beh cfg s buf off).1.parts.get?
          ((off + k) / cfg.partSize) = some (some q) ∧
        q.partNumber = (off + k) / cfg.partSize + 1 ∧
        q.content.get? ((off + k) % cfg.partSize) = buf.get? k := by
  set P := cfg.partSize with hPdef
  set L := buf.length with hLdef
  set pn0 := off / P with hpn0def
  set po0 := off % P with hpo0def
  set pnf := (off + L - 1) / P with hpnfdef
  set s1 : WState :=
    extendParts { s with infoSize := max s.infoSize (off + L) } pnf with hs1def
  have hdm : P * pn0 + po0 = off := Nat.div_add_mod off P
  have hpo0lt : po0 < P := Nat.mod_lt off hP
  have hs1len : pnf < s1.parts.length := extendParts_length _ pnf
  have hdmf : P * pnf + (off + L - 1) % P = off + L - 1 :=
    Nat.div_add_mod (off + L - 1) P
  have hmodf : (off + L - 1) % P < P := Nat.mod_lt _ hP
  have hcov : pn0 * P + po0 + L ≤ s1.parts.length * P := by
    have h1 : P * (pnf + 1) ≤ P * s1.parts.length :=
      Nat.mul_le_mul_left P (by omega)
    have h2 : P * (pnf + 1) = P * pnf + P := by ring
    have h3 : pn0 * P = P * pn0 := Nat.mul_comm _ _
    have h4 : s1.parts.length * P = P * s1.parts.length := Nat.mul_comm _ _
    omega
  have hhyp : LoopHyp cfg s1 buf pn0 po0 0 L := by
    refine ⟨hpo0lt, by omega, hcov, ?_⟩
    intro j q hj hq
    exact hparts j q hj
      (extendParts_get_some { s with infoSize := max s.infoSize (off + L) }
        pnf j q hq)
  obtain ⟨a1, a2, a3, a4⟩ := writeAtLoop_invariant beh cfg hpool hcreate
    (L + 1) s1 buf pn0 po0 0 L (by omega) hhyp
  rw [writeAt_ok beh cfg s buf off herr hmax]
  rcases hL : writeAtLoop beh cfg (L + 1) s1 buf pn0 po0 0 L with ⟨s2, e2⟩
  rw [hL] at a1 a2 a3 a4
  cases a1
  dsimp only
  refine ⟨rfl, rfl, ?_⟩
  intro k hk
  have hidx : pn0 * P + po0 + (k - 0) = off + k := by
    have h3 : pn0 * P = P * pn0 := Nat.mul_comm _ _
    omega
  obtain ⟨q, hq1, hq2, hq3⟩ := a4 k (Nat.zero_le k) hk
  rw [hidx] at hq1 hq2 hq3
  exact ⟨q, hq1, hq2, hq3⟩

theorem writeAt_byte_addressing_witness :
    (writeAt allOk { partSize := 2 } mkWriter [9, 8, 7] 1).2.2 = none ∧
    (writeAt allOk { partSize := 2 } mkWriter [9, 8, 7] 1).2.1 = 3 ∧
    ∀ k, k < 3 →
      ∃ q, (writeAt allOk { partSize := 2 } mkWriter [9, 8, 7] 1).1.parts.get?
          ((1 + k) / 2) = some (some q) ∧
        q.partNumber = (1 + k) / 2 + 1 ∧
        q.content.get? ((1 + k) % 2) = [9, 8, 7].get? k :=
  writeAt_byte_addressing allOk { partSize := 2 } mkWriter [9, 8, 7] 1
    rfl rfl (by decide) rfl (by decide) (by decide)
    (by intro j q hj hq; simp [mkWriter] at hq)

end S3Proxy
